import Mathlib

/-!
RTB event aggregation: window bucketing, counter stores and flush.

A shallow embedding of the Go program `go_rtb_consumer`
(`rtb_consumer.go`, `topics.go`, `write_agg.go`, `readsql.go`).

* `int64` values are integers in `[-2^63, 2^63)`; every arithmetic operation that can
  leave that range is followed by `wrap64`.
* A `time.Time` is its Unix time (seconds and nanoseconds).
* A Go `map[RecordKey]CountFields` is an association list without duplicate keys.
* The wall clock (`time.Now()`) is an input of the functions that read it.
-/

namespace RtbConsumer

/-! ## Machine integers -/

/-- Two's-complement wrap-around of an integer into the `int64` range. -/
def wrap64 (x : Int) : Int := (x + 2 ^ 63) % 2 ^ 64 - 2 ^ 63

/-- The value is representable as a Go `int64`. -/
def inInt64 (x : Int) : Prop := -2 ^ 63 ≤ x ∧ x < 2 ^ 63

instance (x : Int) : Decidable (inInt64 x) := by
  unfold inInt64; exact inferInstance

/-! ## `time.Time` and RFC 3339 formatting (Go standard library) -/

/-- A `time.Time` value, identified by its Unix time. -/
structure Time where
  sec : Int
  nsec : Int
deriving DecidableEq, Repr

/-- Go `time.Unix(sec, nsec)` for `0 ≤ nsec < 1e9`. -/
def Time.Unix (sec nsec : Int) : Time := ⟨sec, nsec⟩

/-- Go `t.Unix()`: seconds elapsed since 1970-01-01T00:00:00Z. -/
def Time.unix (t : Time) : Int := t.sec

/-- Go `appendInt` of package `time`: decimal digits of `x`, zero-padded to `width` digits,
after a minus sign when `x` is negative. -/
def appendInt (x : Int) (width : Nat) : String :=
  let digits := Nat.toDigits 10 x.natAbs
  (if x < 0 then "-" else "") ++
    String.mk (List.replicate (width - digits.length) '0' ++ digits)

/-- Proleptic Gregorian (year, month, day) of a day number counted from 1970-01-01. -/
def civilFromDays (days : Int) : Int × Int × Int :=
  let z := days + 719468
  let era := z / 146097
  let doe := z - era * 146097
  let yoe := (doe - doe / 1460 + doe / 36524 - doe / 146096) / 365
  let y := yoe + era * 400
  let doy := doe - (365 * yoe + yoe / 4 - yoe / 100)
  let mp := (5 * doy + 2) / 153
  let d := doy - (153 * mp + 2) / 5 + 1
  let m := if mp < 10 then mp + 3 else mp - 9
  (if m ≤ 2 then y + 1 else y, m, d)

/-- Go `t.UTC().Format(time.RFC3339)`: layout `2006-01-02T15:04:05Z07:00` in UTC. -/
def Time.formatRFC3339 (t : Time) : String :=
  let days := t.sec / 86400
  let rem := t.sec % 86400
  let ymd := civilFromDays days
  appendInt ymd.1 4 ++ "-" ++ appendInt ymd.2.1 2 ++ "-" ++ appendInt ymd.2.2 2 ++ "T" ++
    appendInt (rem / 3600) 2 ++ ":" ++ appendInt (rem % 3600 / 60) 2 ++ ":" ++
    appendInt (rem % 60) 2 ++ "Z"

/-! ## `topics.go`: the window bucketer -/

/-- Go `intervalTimestamp(timestamp, interval)`: label, epoch milliseconds and time value of
the start of the interval of `timestamp` (epoch milliseconds). Go integer division
truncates toward zero and panics on a zero divisor (`none`). -/
def intervalTimestamp (timestamp interval : Int) : Option (String × Int × Time) :=
  if interval = 0 then none
  else
    let timestamp1 := wrap64 (timestamp.tdiv 1000)
    let timestamp2 := wrap64 (wrap64 (timestamp1.tdiv interval) * interval)
    let tm := Time.Unix timestamp2 0
    let str := tm.formatRFC3339
    let epochms := wrap64 (tm.unix * 1000)
    some (str, epochms, tm)

/-! ## `rtb_consumer.go`: keys, counters and the four counter stores -/

/-- Go `CountFields`: message count and time interval of one aggregation key. The mutex
field is not represented: in a sequential run the mutex of every entry present in a map
is unlocked between two operations. -/
structure CountFields where
  count : Int
  intervalTs : Int
  intervalTm : Time
deriving DecidableEq, Repr

/-- Go `RecordKey`: the unique identifier of one aggregation. -/
structure RecordKey where
  CampaignID : Int
  CreativeID : Int
  IntervalStr : String
  IntervalTs : String
deriving DecidableEq, Repr

/-- Go `OutputCounts`: a Go `map[RecordKey]CountFields`. -/
abbrev OutputCounts := AList (fun _ : RecordKey => CountFields)

/-- The zero `time.Time`, January 1 of year 1, 00:00:00 UTC. -/
def Time.zero : Time := ⟨-62135596800, 0⟩

/-- The zero value of `CountFields`, which indexing a map yields for an absent key. -/
def CountFields.zero : CountFields := ⟨0, 0, Time.zero⟩

/-- The index expression `agg[key]`. -/
def OutputCounts.get (agg : OutputCounts) (key : RecordKey) : CountFields :=
  (agg.lookup key).getD CountFields.zero

def intervalStr : String := "5m"

def intervalSecs : Int := 300

/-- The four global counter maps. -/
structure Stores where
  aggBids : OutputCounts
  aggWins : OutputCounts
  aggPixels : OutputCounts
  aggClicks : OutputCounts
deriving DecidableEq

/-- The state after `main` has initialised the counter maps. -/
def Stores.init : Stores := ⟨∅, ∅, ∅, ∅⟩

/-! ## `encoding/json` (Go standard library), as far as the four message structs use it -/

/-- A JSON value as the decoder sees it when it fills a scalar struct field. Arrays and
objects are never inspected by a scalar field, so their content is not represented. -/
inductive JValue where
  | null
  | bool (b : Bool)
  | number (literal : String)
  | string (s : String)
  | composite
deriving DecidableEq, Repr

/-- A message payload: bytes that are not valid JSON, a top-level value that is not an
object (`composite` is then an array), or an object with its members in order. -/
inductive Payload where
  | invalid
  | value (v : JValue)
  | object (members : List (String × JValue))
deriving DecidableEq, Repr

/-- Case folding of one character of an object key, for the match against an ASCII field
name: ASCII upper case, the Kelvin sign and the long s fold to ASCII lower case. -/
def foldRune (c : Char) : Char :=
  if c = Char.ofNat 0x212A then 'k'
  else if c = Char.ofNat 0x017F then 's'
  else c.toLower

/-- The decoder matches an object key with a field name exactly or, failing that, under
case folding; for ASCII field names that are pairwise distinct under folding this is
equality of the folded characters. -/
def foldEq (name key : String) : Bool :=
  name.toList.map foldRune == key.toList.map foldRune

/-- Decimal digits read from the left with an accumulator; `none` at a non-digit. -/
def parseDigits : Nat → List Char → Option Nat
  | acc, [] => some acc
  | acc, c :: cs => if c.isDigit then parseDigits (acc * 10 + (c.toNat - 48)) cs else none

/-- Go `strconv.ParseInt(s, 10, 64)`: an optional sign, at least one decimal digit, nothing
else, and a value in the `int64` range. -/
def parseInt (s : String) : Option Int :=
  match s.toList with
  | [] => none
  | c :: rest =>
    let neg := c = '-'
    let ds := if c = '-' ∨ c = '+' then rest else c :: rest
    if ds = [] then none
    else
      match parseDigits 0 ds with
      | none => none
      | some u =>
        if neg then (if u ≤ 2 ^ 63 then some (-(u : Int)) else none)
        else (if u < 2 ^ 63 then some (u : Int) else none)

/-- A quoted literal is handed to the number parser only when it starts with a minus sign
or a digit. -/
def startsNumber (s : String) : Bool :=
  match s.toList with
  | [] => false
  | c :: _ => c = '-' || c.isDigit

/-- Store into an `int64` field without the `string` option. -/
def storeInt64 (old : Int) : JValue → Option Int
  | .null => some old
  | .number literal => parseInt literal
  | _ => none

/-- Store into an `int64` field tagged `,string`: the value has to be a JSON string (or
`null`); an unquoted number, boolean, array or object is "invalid use of ,string struct
tag". The quoted text `null` leaves the field as it is. -/
def storeQuotedInt64 (old : Int) : JValue → Option Int
  | .null => some old
  | .string s =>
    if s = "null" then some old
    else if startsNumber s then parseInt s
    else none
  | _ => none

/-- Store into a `string` field. -/
def storeString (old : String) : JValue → Option String
  | .null => some old
  | .string s => some s
  | _ => none

/-- Store into a `float64` field; `parseFloatOK s` says that `strconv.ParseFloat(s, 64)`
returns no error. The stored value is not represented, only whether the store succeeds. -/
def storeFloat64 (parseFloatOK : String → Bool) : JValue → Bool
  | .null => true
  | .number literal => parseFloatOK literal
  | _ => false

/-- Store into a `float64` field tagged `,string`. -/
def storeQuotedFloat64 (parseFloatOK : String → Bool) : JValue → Bool
  | .null => true
  | .string s => s = "null" || (startsNumber s && parseFloatOK s)
  | _ => false

/-- Go `json.Unmarshal(msg, &field)` for a struct `field` that holds `zero`, given how one
object member is stored into the struct. `none` is a returned error. -/
def unmarshal {α : Type} (zero : α) (setMember : α → String × JValue → Option α) :
    Payload → Option α
  | .invalid => none
  | .value .null => some zero
  | .value _ => none
  | .object members => members.foldlM setMember zero

/-! ## `topics.go`: message formats -/

/-- Go `BidFields`: message format of the bids topic (the `float64` field `Cost` is decoded
but its value is not represented). -/
structure BidFields where
  CampaignID : Int
  CreativeID : Int
  AdType : String
  Domain : String
  Exchange : String
  Timestamp : Int
deriving DecidableEq, Repr

/-- Go `WinFields`: message format of the wins topic (`Cost` and `Price` not represented). -/
structure WinFields where
  CampaignID : Int
  CreativeID : Int
  AdType : String
  Exchange : String
  Timestamp : Int
  Domain : String
deriving DecidableEq, Repr

/-- Go `PixelFields`: message format of the pixels topic. -/
structure PixelFields where
  CampaignID : Int
  CreativeID : Int
  AdType : String
  Exchange : String
  Timestamp : Int
  Domain : String
deriving DecidableEq, Repr

/-- Go `ClickFields`: message format of the clicks topic. -/
structure ClickFields where
  CampaignID : Int
  CreativeID : Int
  AdType : String
  Exchange : String
  Timestamp : Int
  Domain : String
deriving DecidableEq, Repr

def BidFields.zero : BidFields := ⟨0, 0, "", "", "", 0⟩

def WinFields.zero : WinFields := ⟨0, 0, "", "", 0, ""⟩

def PixelFields.zero : PixelFields := ⟨0, 0, "", "", 0, ""⟩

def ClickFields.zero : ClickFields := ⟨0, 0, "", "", 0, ""⟩

/-- One object member stored into a `BidFields`, by the struct tags
`adid,string`, `crid,string`, `adtype`, `domain`, `exchange`, `cost`, `timestamp`. -/
def BidFields.setMember (parseFloatOK : String → Bool) (f : BidFields)
    (m : String × JValue) : Option BidFields :=
  if foldEq "adid" m.1 then
    (storeQuotedInt64 f.CampaignID m.2).map (fun n => { f with CampaignID := n })
  else if foldEq "crid" m.1 then
    (storeQuotedInt64 f.CreativeID m.2).map (fun n => { f with CreativeID := n })
  else if foldEq "adtype" m.1 then
    (storeString f.AdType m.2).map (fun x => { f with AdType := x })
  else if foldEq "domain" m.1 then
    (storeString f.Domain m.2).map (fun x => { f with Domain := x })
  else if foldEq "exchange" m.1 then
    (storeString f.Exchange m.2).map (fun x => { f with Exchange := x })
  else if foldEq "cost" m.1 then
    (if storeFloat64 parseFloatOK m.2 then some f else none)
  else if foldEq "timestamp" m.1 then
    (storeInt64 f.Timestamp m.2).map (fun n => { f with Timestamp := n })
  else some f

/-- One object member stored into a `WinFields`, by the struct tags `adId,string`,
`cridId,string`, `adtype`, `pubId`, `cost,string`, `price,string`, `timestamp`, `domain`. -/
def WinFields.setMember (parseFloatOK : String → Bool) (f : WinFields)
    (m : String × JValue) : Option WinFields :=
  if foldEq "adId" m.1 then
    (storeQuotedInt64 f.CampaignID m.2).map (fun n => { f with CampaignID := n })
  else if foldEq "cridId" m.1 then
    (storeQuotedInt64 f.CreativeID m.2).map (fun n => { f with CreativeID := n })
  else if foldEq "adtype" m.1 then
    (storeString f.AdType m.2).map (fun x => { f with AdType := x })
  else if foldEq "pubId" m.1 then
    (storeString f.Exchange m.2).map (fun x => { f with Exchange := x })
  else if foldEq "cost" m.1 then
    (if storeQuotedFloat64 parseFloatOK m.2 then some f else none)
  else if foldEq "price" m.1 then
    (if storeQuotedFloat64 parseFloatOK m.2 then some f else none)
  else if foldEq "timestamp" m.1 then
    (storeInt64 f.Timestamp m.2).map (fun n => { f with Timestamp := n })
  else if foldEq "domain" m.1 then
    (storeString f.Domain m.2).map (fun x => { f with Domain := x })
  else some f

/-- One object member stored into a `PixelFields`, by the struct tags `ad_id,string`,
`creative_id,string`, `adtype`, `exchange`, `timestamp`, `domain`. -/
def PixelFields.setMember (f : PixelFields) (m : String × JValue) : Option PixelFields :=
  if foldEq "ad_id" m.1 then
    (storeQuotedInt64 f.CampaignID m.2).map (fun n => { f with CampaignID := n })
  else if foldEq "creative_id" m.1 then
    (storeQuotedInt64 f.CreativeID m.2).map (fun n => { f with CreativeID := n })
  else if foldEq "adtype" m.1 then
    (storeString f.AdType m.2).map (fun x => { f with AdType := x })
  else if foldEq "exchange" m.1 then
    (storeString f.Exchange m.2).map (fun x => { f with Exchange := x })
  else if foldEq "timestamp" m.1 then
    (storeInt64 f.Timestamp m.2).map (fun n => { f with Timestamp := n })
  else if foldEq "domain" m.1 then
    (storeString f.Domain m.2).map (fun x => { f with Domain := x })
  else some f

/-- One object member stored into a `ClickFields`, by the struct tags `ad_id,string`,
`creative_id,string`, `adtype`, `exchange`, `timestamp`, `domain`. -/
def ClickFields.setMember (f : ClickFields) (m : String × JValue) : Option ClickFields :=
  if foldEq "ad_id" m.1 then
    (storeQuotedInt64 f.CampaignID m.2).map (fun n => { f with CampaignID := n })
  else if foldEq "creative_id" m.1 then
    (storeQuotedInt64 f.CreativeID m.2).map (fun n => { f with CreativeID := n })
  else if foldEq "adtype" m.1 then
    (storeString f.AdType m.2).map (fun x => { f with AdType := x })
  else if foldEq "exchange" m.1 then
    (storeString f.Exchange m.2).map (fun x => { f with Exchange := x })
  else if foldEq "timestamp" m.1 then
    (storeInt64 f.Timestamp m.2).map (fun n => { f with Timestamp := n })
  else if foldEq "domain" m.1 then
    (storeString f.Domain m.2).map (fun x => { f with Domain := x })
  else some f

/-! ## `topics.go`: `addCount` -/

/-- The tail of `addCount` that its four `case` branches share: bucket the timestamp,
build the aggregation key, create the entry when the key is absent, and increment.
`none` is a run-time panic of `intervalTimestamp`. -/
def countEvent (agg : OutputCounts) (campaignID creativeID timestamp : Int) :
    Option OutputCounts :=
  match intervalTimestamp timestamp intervalSecs with
  | none => none
  | some (ts, tsMs, tm) =>
    let key : RecordKey := ⟨campaignID, creativeID, intervalStr, ts⟩
    let agg1 := if (agg.lookup key).isSome then agg else agg.insert key ⟨0, tsMs, tm⟩
    let tmp := agg1.get key
    some (agg1.insert key { tmp with count := wrap64 (tmp.count + 1) })

/-- Go `agg.addCount(topic, msg)`. A message that fails to unmarshal, or an unexpected topic,
is logged and leaves the map as it is. -/
def addCount (parseFloatOK : String → Bool) (agg : OutputCounts) (topic : String)
    (msg : Payload) : Option OutputCounts :=
  if topic = "bids" then
    match unmarshal BidFields.zero (BidFields.setMember parseFloatOK) msg with
    | none => some agg
    | some field => countEvent agg field.CampaignID field.CreativeID field.Timestamp
  else if topic = "wins" then
    match unmarshal WinFields.zero (WinFields.setMember parseFloatOK) msg with
    | none => some agg
    | some field => countEvent agg field.CampaignID field.CreativeID field.Timestamp
  else if topic = "pixels" then
    match unmarshal PixelFields.zero PixelFields.setMember msg with
    | none => some agg
    | some field => countEvent agg field.CampaignID field.CreativeID field.Timestamp
  else if topic = "clicks" then
    match unmarshal ClickFields.zero ClickFields.setMember msg with
    | none => some agg
    | some field => countEvent agg field.CampaignID field.CreativeID field.Timestamp
  else some agg

/-- A message delivered by the broker. -/
structure Message where
  topic : String
  value : Payload
deriving DecidableEq, Repr

/-- The message loop of `getTopic`, run over the messages in delivery order: each message
goes to the counter map of its topic; at an unexpected topic the loop returns and leaves
the remaining messages unread. `none` is a run-time panic. -/
def consumeMessages (parseFloatOK : String → Bool) : Stores → List Message → Option Stores
  | s, [] => some s
  | s, m :: rest =>
    if m.topic = "bids" then
      (addCount parseFloatOK s.aggBids m.topic m.value).bind
        (fun a => consumeMessages parseFloatOK { s with aggBids := a } rest)
    else if m.topic = "wins" then
      (addCount parseFloatOK s.aggWins m.topic m.value).bind
        (fun a => consumeMessages parseFloatOK { s with aggWins := a } rest)
    else if m.topic = "pixels" then
      (addCount parseFloatOK s.aggPixels m.topic m.value).bind
        (fun a => consumeMessages parseFloatOK { s with aggPixels := a } rest)
    else if m.topic = "clicks" then
      (addCount parseFloatOK s.aggClicks m.topic m.value).bind
        (fun a => consumeMessages parseFloatOK { s with aggClicks := a } rest)
    else some s

/-! ## `readsql.go`: the campaign reference data -/

/-- Go `sql.NullString`. -/
structure NullString where
  String : String
  Valid : Bool
deriving DecidableEq, Repr

/-- Go `CampaignBannerFields`: a joined row of campaigns and banners; `ID` is the campaign
identifier (`campaigns.id`), `BannerID` the creative identifier (`banners.id`). -/
structure CampaignBannerFields where
  ID : Int
  BannerID : Int
  Regions : NullString
deriving DecidableEq, Repr

/-- Go `CampaignVideoFields`: a joined row of campaigns and videos; `ID` is the campaign
identifier (`campaigns.id`), `VideoID` the creative identifier (`videos.id`). -/
structure CampaignVideoFields where
  ID : Int
  VideoID : Int
  Regions : NullString
deriving DecidableEq, Repr

/-- Go `CampaignCreativeFields`: generic campaign and creative fields. -/
structure CampaignCreativeFields where
  Regions : NullString
deriving DecidableEq, Repr

/-- The zero value `CampaignCreativeFields{}`. -/
def CampaignCreativeFields.zero : CampaignCreativeFields := ⟨⟨"", false⟩⟩

/-- The two global record arrays `dbCampaignBanners` and `dbCampaignVideos`. -/
structure RefData where
  dbCampaignBanners : List CampaignBannerFields
  dbCampaignVideos : List CampaignVideoFields
deriving DecidableEq, Repr

/-- Go `CampaignBanners.findID(ID, BannerID)`. -/
def CampaignBanners.findID (campaigns : List CampaignBannerFields) (ID BannerID : Int) :
    CampaignCreativeFields × Bool :=
  match campaigns with
  | [] => (CampaignCreativeFields.zero, false)
  | v :: rest =>
    if v.ID = ID ∧ v.BannerID = BannerID then (⟨v.Regions⟩, true)
    else CampaignBanners.findID rest ID BannerID

/-- Go `CampaignVideos.findID(ID, VideoID)`. -/
def CampaignVideos.findID (campaigns : List CampaignVideoFields) (ID VideoID : Int) :
    CampaignCreativeFields × Bool :=
  match campaigns with
  | [] => (CampaignCreativeFields.zero, false)
  | v :: rest =>
    if v.ID = ID ∧ v.VideoID = VideoID then (⟨v.Regions⟩, true)
    else CampaignVideos.findID rest ID VideoID

/-- The first loop of `findCampaign`: the first banner record with `v.ID == creatIDint`. -/
def firstBannerByID (banners : List CampaignBannerFields) (creatIDint : Int) :
    Option CampaignCreativeFields :=
  match banners with
  | [] => none
  | v :: rest => if v.ID = creatIDint then some ⟨v.Regions⟩ else firstBannerByID rest creatIDint

/-- The second loop of `findCampaign`: the first video record with `v.ID == creatIDint`. -/
def firstVideoByID (videos : List CampaignVideoFields) (creatIDint : Int) :
    Option CampaignCreativeFields :=
  match videos with
  | [] => none
  | v :: rest => if v.ID = creatIDint then some ⟨v.Regions⟩ else firstVideoByID rest creatIDint

/-- Go `findCampaign(campIDint, creatIDint)`. -/
def findCampaign (db : RefData) (campIDint creatIDint : Int) : CampaignCreativeFields :=
  match firstBannerByID db.dbCampaignBanners creatIDint with
  | some r => r
  | none =>
    match firstVideoByID db.dbCampaignVideos creatIDint with
    | some r => r
    | none =>
      if (CampaignBanners.findID db.dbCampaignBanners campIDint creatIDint).2 then
        (CampaignBanners.findID db.dbCampaignBanners campIDint creatIDint).1
      else if (CampaignVideos.findID db.dbCampaignVideos campIDint creatIDint).2 then
        (CampaignVideos.findID db.dbCampaignVideos campIDint creatIDint).1
      else CampaignCreativeFields.zero

/-! ## `write_agg.go`: the record emitter -/

/-- Go `AggCounter`: the aggregation record handed to the sink. -/
structure AggCounter where
  CampaignID : Int
  CreativeID : Int
  Interval : String
  Region : String
  Timestamp : Time
  DbTimestamp : Time
  Bids : Int
  Wins : Int
  Pixels : Int
  Clicks : Int
deriving DecidableEq, Repr

/-- The record that one iteration of the loop of `writeAggregatedRecords` builds for the
key `k` from the stores `s`. `clock k` holds the two readings of `time.Now()` that this
iteration may take: the fallback for the interval time, and the emission time. -/
def aggRecord (db : RefData) (clock : RecordKey → Time × Time) (s : Stores)
    (k : RecordKey) : AggCounter :=
  let campaignID := k.CampaignID
  let creativeID := k.CreativeID
  let intervalStr := k.IntervalStr
  let campaignRec := findCampaign db campaignID creativeID
  let intervalTime :=
    if (s.aggBids.get k).count > 0 then (s.aggBids.get k).intervalTm
    else if (s.aggWins.get k).count > 0 then (s.aggWins.get k).intervalTm
    else if (s.aggPixels.get k).count > 0 then (s.aggPixels.get k).intervalTm
    else if (s.aggClicks.get k).count > 0 then (s.aggClicks.get k).intervalTm
    else (clock k).1
  let now := (clock k).2
  { CampaignID := campaignID
    CreativeID := creativeID
    Interval := intervalStr
    Region := campaignRec.Regions.String
    Timestamp := intervalTime
    DbTimestamp := now
    Bids := (s.aggBids.get k).count
    Wins := (s.aggWins.get k).count
    Pixels := (s.aggPixels.get k).count
    Clicks := (s.aggClicks.get k).count }

/-- The four `delete` statements of `writeAggregatedRecords`. -/
def Stores.delete (s : Stores) (k : RecordKey) : Stores :=
  { aggBids := s.aggBids.erase k
    aggWins := s.aggWins.erase k
    aggPixels := s.aggPixels.erase k
    aggClicks := s.aggClicks.erase k }

/-- Go `writeAggregatedRecords(allkeys)`: for each key of the set, in the order `allkeys` in
which the `range` visits it, build the record `aggrec` and delete the counters of the key.
Returns the records built, in the order of the pass, and the stores left behind. What an
iteration hands to the logger is the marshalled record: see `loggedRecords`. -/
def writeAggregatedRecords (db : RefData) (clock : RecordKey → Time × Time) :
    List RecordKey → Stores → List AggCounter × Stores
  | [], s => ([], s)
  | k :: rest, s =>
    let aggrec := aggRecord db clock s k
    let r := writeAggregatedRecords db clock rest (s.delete k)
    (aggrec :: r.1, r.2)

/-- The year of a time value in a location whose offset east of UTC is `offset` seconds. -/
def Time.year (offset : Int) (t : Time) : Int :=
  (civilFromDays ((t.sec + offset) / 86400)).1

/-- Go `Time.MarshalJSON` (Go standard library) returns no error: the year of the time value,
read in its location, is in the range 0 to 9999. -/
def Time.marshals (offset : Int) (t : Time) : Bool :=
  decide (0 ≤ t.year offset) && decide (t.year offset ≤ 9999)

/-- Whether `json.Marshal(aggrec)` returns no error. The two time values are the only fields
that can fail: `Timestamp` is a local time (it comes from `time.Unix` or `time.Now()`), and
`zone u` is the offset east of UTC, in seconds, of the local time zone at the Unix time
`u`; `DbTimestamp` is a UTC time. -/
def AggCounter.marshals (zone : Int → Int) (r : AggCounter) : Bool :=
  r.Timestamp.marshals (zone r.Timestamp.sec) && r.DbTimestamp.marshals 0

/-- The statement `jsonStr, _ := json.Marshal(aggrec)`: the JSON text of the record, which
is represented by the record itself, or with the error discarded the empty text `none`. -/
def marshalAggCounter (zone : Int → Int) (r : AggCounter) : Option AggCounter :=
  if r.marshals zone then some r else none

/-- The texts that the iterations of `writeAggregatedRecords` hand to the sink with
`log1.Info(fmt.Sprintf("Agg record %s", jsonStr))`, in the order of the pass: each
iteration marshals the record it has built, logs the text, and then deletes the counters
of the key, whether or not the text is empty. -/
def loggedRecords (zone : Int → Int) (db : RefData) (clock : RecordKey → Time × Time)
    (allkeys : List RecordKey) (s : Stores) : List (Option AggCounter) :=
  (writeAggregatedRecords db clock allkeys s).1.map (marshalAggCounter zone)

/-! ## `rtb_consumer.go`: key selection and the two flush triggers -/

/-- Go `setMapKeys(set, mymaps, tsMs, sendAll)`: the set, held as a duplicate-free list, after
the loop over the entries of `mymaps`. -/
def setMapKeys (set : List RecordKey) (mymaps : OutputCounts) (tsMs : Int) (sendAll : Bool) :
    List RecordKey :=
  mymaps.entries.foldl
    (fun acc e => if sendAll || decide (e.2.intervalTs ≤ tsMs) then acc.insert e.1 else acc) set

/-- The key set `allkeys` that `writeLastInterval` builds when `time.Now().Unix()` is
`nowUnix`; `none` is a run-time panic of `intervalTimestamp`. -/
def lastIntervalKeys (nowUnix : Int) (s : Stores) : Option (List RecordKey) :=
  match intervalTimestamp (wrap64 (nowUnix * 1000)) intervalSecs with
  | none => none
  | some (_, tsMs0, _) =>
    let allkeys : List RecordKey := []
    let tsMs := wrap64 (tsMs0 - wrap64 (intervalSecs * 1000))
    let allkeys := setMapKeys allkeys s.aggBids tsMs false
    let allkeys := setMapKeys allkeys s.aggWins tsMs false
    let allkeys := setMapKeys allkeys s.aggPixels tsMs false
    let allkeys := setMapKeys allkeys s.aggClicks tsMs false
    some allkeys

/-- Go `writeLastInterval()`, called on every tick. -/
def writeLastInterval (db : RefData) (clock : RecordKey → Time × Time) (nowUnix : Int)
    (s : Stores) : Option (List AggCounter × Stores) :=
  (lastIntervalKeys nowUnix s).map (fun allkeys => writeAggregatedRecords db clock allkeys s)

/-- The key set `allkeys` that the interrupt branch of `main` builds. -/
def drainKeys (s : Stores) : List RecordKey :=
  let allkeys : List RecordKey := []
  let tsMs : Int := 0
  let allkeys := setMapKeys allkeys s.aggBids tsMs true
  let allkeys := setMapKeys allkeys s.aggWins tsMs true
  let allkeys := setMapKeys allkeys s.aggPixels tsMs true
  let allkeys := setMapKeys allkeys s.aggClicks tsMs true
  allkeys

/-- The interrupt branch of `main`: drain the remaining writes. -/
def drain (db : RefData) (clock : RecordKey → Time × Time) (s : Stores) :
    List AggCounter × Stores :=
  writeAggregatedRecords db clock (drainKeys s) s

/-! ## Auxiliary definitions for the statements -/

/-- The window start in seconds that `intervalTimestamp` computes: both divisions
truncate toward zero. -/
def windowStartSec (timestamp interval : Int) : Int :=
  ((timestamp.tdiv 1000).tdiv interval) * interval

/-- The campaign identifier, creative identifier and timestamp that `addCount` reads from
a message of `topic`; `none` when `addCount` logs and returns without counting (the
message fails to unmarshal, or the topic is unexpected). -/
def decodeEvent (parseFloatOK : String → Bool) (topic : String) (msg : Payload) :
    Option (Int × Int × Int) :=
  if topic = "bids" then
    (unmarshal BidFields.zero (BidFields.setMember parseFloatOK) msg).map
      (fun f => (f.CampaignID, f.CreativeID, f.Timestamp))
  else if topic = "wins" then
    (unmarshal WinFields.zero (WinFields.setMember parseFloatOK) msg).map
      (fun f => (f.CampaignID, f.CreativeID, f.Timestamp))
  else if topic = "pixels" then
    (unmarshal PixelFields.zero PixelFields.setMember msg).map
      (fun f => (f.CampaignID, f.CreativeID, f.Timestamp))
  else if topic = "clicks" then
    (unmarshal ClickFields.zero ClickFields.setMember msg).map
      (fun f => (f.CampaignID, f.CreativeID, f.Timestamp))
  else none

/-- The aggregation key that `addCount` builds for a message: the key the message maps to. -/
def messageKey (parseFloatOK : String → Bool) (topic : String) (msg : Payload) :
    Option RecordKey :=
  match decodeEvent parseFloatOK topic msg with
  | none => none
  | some (c, r, t) =>
    match intervalTimestamp t intervalSecs with
    | none => none
    | some (ts, _, _) => some ⟨c, r, intervalStr, ts⟩

/-- The four event categories, each with its topic and its counter map. -/
inductive Category where
  | bid
  | win
  | pixel
  | click
deriving DecidableEq, Repr

def Category.topic : Category → String
  | .bid => "bids"
  | .win => "wins"
  | .pixel => "pixels"
  | .click => "clicks"

def Stores.of (s : Stores) : Category → OutputCounts
  | .bid => s.aggBids
  | .win => s.aggWins
  | .pixel => s.aggPixels
  | .click => s.aggClicks

/-- The number of messages of category `c` in `msgs` that map to the key `k`. -/
def hits (parseFloatOK : String → Bool) (c : Category) (k : RecordKey) (msgs : List Message) :
    Nat :=
  msgs.countP (fun m => decide (m.topic = c.topic ∧ messageKey parseFloatOK m.topic m.value = some k))

/-- The decimal digits of an integer, with a minus sign when it is negative. -/
def decimal (n : Int) : String :=
  String.mk ((if n < 0 then ['-'] else []) ++ Nat.toDigits 10 n.natAbs)

/-- The JSON name of the campaign identifier in the messages of a category. -/
def Category.campaignField : Category → String
  | .bid => "adid"
  | .win => "adId"
  | .pixel => "ad_id"
  | .click => "ad_id"

/-- The JSON name of the creative identifier in the messages of a category. -/
def Category.creativeField : Category → String
  | .bid => "crid"
  | .win => "cridId"
  | .pixel => "creative_id"
  | .click => "creative_id"

/-- A topic is one of the four that the program subscribes to. -/
def knownTopic (topic : String) : Prop :=
  topic = "bids" ∨ topic = "wins" ∨ topic = "pixels" ∨ topic = "clicks"

instance (topic : String) : Decidable (knownTopic topic) := by
  unfold knownTopic; exact inferInstance

/-- The window start in epoch milliseconds as the specification words it:
`floor(eventEpochSec / intervalSeconds) * intervalSeconds * 1000`, with `eventEpochSec`
the timestamp in whole seconds and the mathematical floor. -/
def specWindowStartMs (eventEpochMs intervalSeconds : Int) : Int :=
  ⌊((⌊(eventEpochMs : ℚ) / 1000⌋ : Int) : ℚ) / (intervalSeconds : ℚ)⌋ * intervalSeconds * 1000

/-! ## Example data -/

def exampleParseFloatOK : String → Bool := fun _ => true

/-- A bid for campaign 10, creative 20 at epoch ms 1000000000000. -/
def exampleBid : Message :=
  ⟨"bids", .object [("adid", .string "10"), ("crid", .string "20"),
    ("timestamp", .number "1000000000000")]⟩

/-- A win for the same campaign and creative two seconds later. -/
def exampleWin : Message :=
  ⟨"wins", .object [("adId", .string "10"), ("cridId", .string "20"),
    ("timestamp", .number "1000000002000")]⟩

/-- The bid of `exampleBid` with the campaign identifier written as a JSON number. -/
def exampleNumericBid : Message :=
  ⟨"bids", .object [("adid", .number "10"), ("crid", .string "20"),
    ("timestamp", .number "1000000000000")]⟩

/-- Campaign 20 with banner 7 in region EU, campaign 10 with banner 20 in region US. -/
def exampleDb : RefData := ⟨[⟨20, 7, ⟨"EU", true⟩⟩, ⟨10, 20, ⟨"US", true⟩⟩], []⟩

def exampleClock : RecordKey → Time × Time := fun _ => (⟨1000000600, 0⟩, ⟨1000000600, 0⟩)

def exampleKey : RecordKey := ⟨10, 20, "5m", "2001-09-09T01:45:00Z"⟩

/-- The stores after `exampleBid` and `exampleWin`. -/
def exampleStores : Stores :=
  { aggBids := AList.singleton exampleKey ⟨1, 999999900000, ⟨999999900, 0⟩⟩
    aggWins := AList.singleton exampleKey ⟨1, 999999900000, ⟨999999900, 0⟩⟩
    aggPixels := ∅
    aggClicks := ∅ }

/-! ## Reachable states of the sequential program -/

/-- The states `s` that the four stores reach from the initial state by `addCount` calls,
made through the message loop, and by flush passes on a tick or on the shutdown signal,
each pass visiting its key set in any order; `n` counts the messages handled. -/
inductive Reachable (pf : String → Bool) (db : RefData) (clock : RecordKey → Time × Time) :
    Nat → Stores → Prop where
  | start : Reachable pf db clock 0 Stores.init
  | message (n : Nat) (s s1 : Stores) (m : Message) :
      Reachable pf db clock n s → consumeMessages pf s [m] = some s1 →
      Reachable pf db clock (n + 1) s1
  | tick (n : Nat) (s : Stores) (nowUnix : Int) (allkeys order : List RecordKey) :
      Reachable pf db clock n s → lastIntervalKeys nowUnix s = some allkeys →
      order.Perm allkeys →
      Reachable pf db clock n (writeAggregatedRecords db clock order s).2
  | shutdown (n : Nat) (s : Stores) (order : List RecordKey) :
      Reachable pf db clock n s → order.Perm (drainKeys s) →
      Reachable pf db clock n (writeAggregatedRecords db clock order s).2

/-- The first category, in the order bid, win, pixel, click of the `if` chain of
`writeAggregatedRecords`, whose count for the key is positive; `none` when the chain
falls through to `time.Now()`. -/
def firstCounted (s : Stores) (k : RecordKey) : Option Category :=
  if (s.aggBids.get k).count > 0 then some Category.bid
  else if (s.aggWins.get k).count > 0 then some Category.win
  else if (s.aggPixels.get k).count > 0 then some Category.pixel
  else if (s.aggClicks.get k).count > 0 then some Category.click
  else none

/-! ## Interleaved execution of `addCount`

Several goroutines run the tail of `addCount` (lines 171 to 181 of `topics.go`) on one
counter map. Every access to the map or to a mutex is one atomic step, and the steps of
the tasks interleave in any order (sequential consistency). -/

/-- Go `CountFields` together with its mutex: `lock` is the address of the mutex, `none`
the nil pointer of the zero value. -/
structure LockedCountFields where
  lock : Option Nat
  count : Int
  intervalTs : Int
  intervalTm : Time
deriving DecidableEq, Repr

/-- The zero value that indexing the map yields for an absent key. -/
def LockedCountFields.zero : LockedCountFields := ⟨none, 0, 0, Time.zero⟩

/-- The memory that the tasks share: the counter map, and the mutexes allocated so far,
each with its locked flag. -/
structure Shared where
  agg : AList (fun _ : RecordKey => LockedCountFields)
  mutexes : List Bool

/-- The index expression `agg[key]` on the shared map. -/
def Shared.get (sh : Shared) (key : RecordKey) : LockedCountFields :=
  (sh.agg.lookup key).getD LockedCountFields.zero

/-- The program points of the tail of `addCount`. -/
inductive Pc where
  | check
  | create
  | lockRead
  | lockAcquire
  | load
  | increment
  | store
  | unlockRead
  | unlockRelease
  | done
deriving DecidableEq, Repr

/-- One goroutine inside `addCount`: its program point and its local variables. -/
structure Task where
  pc : Pc
  key : RecordKey
  tsMs : Int
  tm : Time
  ok : Bool
  mutex : Option Nat
  tmp : LockedCountFields
deriving DecidableEq, Repr

/-- The task that a call `agg.addCount(topic, msg)` becomes once the message is decoded and
its key built, which touches no shared memory; `none` when the call returns before that. -/
def startTask (parseFloatOK : String → Bool) (topic : String) (msg : Payload) : Option Task :=
  match decodeEvent parseFloatOK topic msg with
  | none => none
  | some (c, r, t) =>
    match intervalTimestamp t intervalSecs with
    | none => none
    | some (ts, tsMs, tm) =>
      some { pc := Pc.check, key := ⟨c, r, intervalStr, ts⟩, tsMs := tsMs, tm := tm,
             ok := false, mutex := none, tmp := LockedCountFields.zero }

/-- One atomic step of a task; `none` when the task cannot step: it is blocked on a locked
mutex, it has finished, or the step is a run-time failure (nil mutex, unlock of an
unlocked mutex). -/
def Task.step (t : Task) (sh : Shared) : Option (Task × Shared) :=
  match t.pc with
  | Pc.check =>
    some ({ t with ok := (sh.agg.lookup t.key).isSome, pc := Pc.create }, sh)
  | Pc.create =>
    if t.ok then some ({ t with pc := Pc.lockRead }, sh)
    else
      some ({ t with pc := Pc.lockRead },
        { agg := sh.agg.insert t.key ⟨some sh.mutexes.length, 0, t.tsMs, t.tm⟩
          mutexes := sh.mutexes ++ [false] })
  | Pc.lockRead =>
    some ({ t with mutex := (sh.get t.key).lock, pc := Pc.lockAcquire }, sh)
  | Pc.lockAcquire =>
    match t.mutex with
    | none => none
    | some i =>
      if sh.mutexes.getD i true then none
      else some ({ t with pc := Pc.load }, { sh with mutexes := sh.mutexes.set i true })
  | Pc.load =>
    some ({ t with tmp := sh.get t.key, pc := Pc.increment }, sh)
  | Pc.increment =>
    some ({ t with tmp := { t.tmp with count := wrap64 (t.tmp.count + 1) }, pc := Pc.store }, sh)
  | Pc.store =>
    some ({ t with pc := Pc.unlockRead }, { sh with agg := sh.agg.insert t.key t.tmp })
  | Pc.unlockRead =>
    some ({ t with mutex := (sh.get t.key).lock, pc := Pc.unlockRelease }, sh)
  | Pc.unlockRelease =>
    match t.mutex with
    | none => none
    | some i =>
      if sh.mutexes.getD i false then
        some ({ t with pc := Pc.done }, { sh with mutexes := sh.mutexes.set i false })
      else none
  | Pc.done => none

/-- The tasks run under a schedule: each entry names the task that takes the next step.
`none` when a named task cannot step. -/
def runSchedule : List Nat → List Task × Shared → Option (List Task × Shared)
  | [], st => some st
  | i :: rest, st =>
    match st.1.get? i with
    | none => none
    | some t =>
      match t.step st.2 with
      | none => none
      | some r => runSchedule rest (st.1.set i r.1, r.2)

/-- The interleaving of two tasks in which both pass the existence check before either
creates the entry, then the first runs to its end, then the second. -/
def racySchedule : List Nat :=
  [0, 1, 0, 0, 0, 0, 0, 0, 0, 0, 1, 1, 1, 1, 1, 1, 1, 1]

/-- The interleaving of two tasks in which the first runs to its end before the second
starts. -/
def serialSchedule : List Nat :=
  [0, 0, 0, 0, 0, 0, 0, 0, 0, 1, 1, 1, 1, 1, 1, 1, 1, 1]

/-- The property of the stores that every reachable state has: each entry has a count
between 1 and the number `n` of messages handled, and carries the epoch milliseconds and
time value that `intervalTimestamp` returns together with the label of its key. -/
def StoresInv (n : Nat) (s : Stores) : Prop :=
  ∀ (c : Category) (k : RecordKey) (f : CountFields), (s.of c).lookup k = some f →
    1 ≤ f.count ∧ f.count ≤ n ∧
    ∃ t, intervalTimestamp t intervalSecs = some (k.IntervalTs, f.intervalTs, f.intervalTm)

/-- The stores after `exampleBid` alone. -/
def exampleBidStores : Stores :=
  { aggBids := AList.singleton exampleKey ⟨1, 999999900000, ⟨999999900, 0⟩⟩
    aggWins := ∅
    aggPixels := ∅
    aggClicks := ∅ }

/-- The local time zone is UTC. -/
def exampleZone : Int → Int := fun _ => 0

/-- A bid for campaign 10, creative 20 at epoch ms 253402300800000, which is
10000-01-01T00:00:00Z. -/
def exampleFarBid : Message :=
  ⟨"bids", .object [("adid", .string "10"), ("crid", .string "20"),
    ("timestamp", .number "253402300800000")]⟩

def exampleFarKey : RecordKey := ⟨10, 20, "5m", "10000-01-01T00:00:00Z"⟩

/-- The stores after `exampleFarBid` alone. -/
def exampleFarStores : Stores :=
  { aggBids := AList.singleton exampleFarKey ⟨1, 253402300800000, ⟨253402300800, 0⟩⟩
    aggWins := ∅
    aggPixels := ∅
    aggClicks := ∅ }

/-- The object member that carries the campaign identifier `n` as a JSON string of its
decimal digits. -/
def campaignMember (c : Category) (n : Int) : String × JValue :=
  (c.campaignField, JValue.string (decimal n))

/-- The object member that carries the creative identifier `r` as a JSON string of its
decimal digits. -/
def creativeMember (c : Category) (r : Int) : String × JValue :=
  (c.creativeField, JValue.string (decimal r))

/-! ## Arithmetic of the bucketer -/

theorem wrap64_of_inInt64 {x : Int} (h : inInt64 x) : wrap64 x = x := by
  unfold inInt64 at h
  unfold wrap64
  omega

theorem wrap64_inInt64 (x : Int) : inInt64 (wrap64 x) := by
  unfold inInt64 wrap64
  omega

theorem tdiv_pos_cases (a b : Int) (hb : 0 < b) :
    (0 ≤ a → a.tdiv b = a / b) ∧ (a < 0 → a.tdiv b = -((-a) / b)) := by
  constructor
  · intro ha
    exact Int.tdiv_eq_ediv ha (le_of_lt hb)
  · intro ha
    have h1 : (-(-a)).tdiv b = -((-a).tdiv b) := Int.neg_tdiv (-a) b
    rw [neg_neg] at h1
    rw [h1, Int.tdiv_eq_ediv (by omega) (le_of_lt hb)]

/-- Truncated division by a positive number moves toward zero. -/
theorem tdiv_toward_zero (a b : Int) (hb : 0 < b) :
    (0 ≤ a → 0 ≤ a.tdiv b ∧ a.tdiv b * b ≤ a ∧ a.tdiv b ≤ a) ∧
    (a < 0 → a.tdiv b ≤ 0 ∧ a ≤ a.tdiv b * b ∧ a ≤ a.tdiv b) := by
  obtain ⟨h1, h2⟩ := tdiv_pos_cases a b hb
  constructor
  · intro ha
    rw [h1 ha]
    have hq : 0 ≤ a / b := Int.ediv_nonneg ha (le_of_lt hb)
    have hm : a / b * b ≤ a := Int.ediv_mul_le a (ne_of_gt hb)
    refine ⟨hq, hm, ?_⟩
    nlinarith
  · intro ha
    rw [h2 ha]
    have hq : 0 ≤ (-a) / b := Int.ediv_nonneg (by omega) (le_of_lt hb)
    have hm : (-a) / b * b ≤ -a := Int.ediv_mul_le (-a) (ne_of_gt hb)
    refine ⟨by omega, by nlinarith, ?_⟩
    nlinarith

theorem windowStartSec_bounds (ms interval : Int) (hms : inInt64 ms) (hpos : 0 < interval) :
    inInt64 (ms.tdiv 1000) ∧ inInt64 ((ms.tdiv 1000).tdiv interval) ∧
    inInt64 (windowStartSec ms interval) ∧ inInt64 (windowStartSec ms interval * 1000) := by
  unfold windowStartSec inInt64 at *
  obtain ⟨a1, a2⟩ := tdiv_toward_zero ms 1000 (by norm_num)
  obtain ⟨b1, b2⟩ := tdiv_toward_zero (ms.tdiv 1000) interval hpos
  rcases le_or_lt 0 ms with h | h
  · obtain ⟨p1, p2, p3⟩ := a1 h
    obtain ⟨q1, q2, q3⟩ := b1 p1
    have : 0 ≤ (ms.tdiv 1000).tdiv interval * interval := mul_nonneg q1 (le_of_lt hpos)
    refine ⟨⟨by omega, by omega⟩, ⟨by omega, by omega⟩, ⟨by omega, by omega⟩,
      ⟨by omega, by omega⟩⟩
  · obtain ⟨p1, p2, p3⟩ := a2 h
    rcases le_or_lt 0 (ms.tdiv 1000) with h0 | h0
    · have hz : ms.tdiv 1000 = 0 := by omega
      rw [hz]
      simp
    · obtain ⟨q1, q2, q3⟩ := b2 h0
      have : (ms.tdiv 1000).tdiv interval * interval ≤ 0 :=
        mul_nonpos_of_nonpos_of_nonneg q1 (le_of_lt hpos)
      refine ⟨⟨by omega, by omega⟩, ⟨by omega, by omega⟩, ⟨by omega, by omega⟩,
        ⟨by omega, by omega⟩⟩

/-- On an `int64` timestamp and a positive interval no operation of `intervalTimestamp`
overflows, and the result is built from `windowStartSec`. -/
theorem intervalTimestamp_eq (ms interval : Int) (hms : inInt64 ms) (hpos : 0 < interval) :
    intervalTimestamp ms interval =
      some ((Time.Unix (windowStartSec ms interval) 0).formatRFC3339,
        windowStartSec ms interval * 1000, Time.Unix (windowStartSec ms interval) 0) := by
  obtain ⟨h1, h2, h3, h4⟩ := windowStartSec_bounds ms interval hms hpos
  unfold windowStartSec at h3 h4
  unfold intervalTimestamp windowStartSec
  rw [if_neg (ne_of_gt hpos)]
  simp only [Time.unix, Time.Unix]
  rw [wrap64_of_inInt64 h1, wrap64_of_inInt64 h2, wrap64_of_inInt64 h3, wrap64_of_inInt64 h4]

theorem windowStartSec_floor (ms interval : Int) (hms : 0 ≤ ms) (hpos : 0 < interval) :
    windowStartSec ms interval =
      ⌊((⌊(ms : ℚ) / 1000⌋ : Int) : ℚ) / (interval : ℚ)⌋ * interval := by
  have e1 : ⌊(ms : ℚ) / 1000⌋ = ms / 1000 := by
    have := Rat.floor_intCast_div_natCast ms 1000
    simpa using this
  have e2 : ∀ s : Int, ⌊(s : ℚ) / (interval : ℚ)⌋ = s / interval := by
    intro s
    have := Rat.floor_intCast_div_natCast s interval.toNat
    have hc : ((interval.toNat : Int)) = interval := Int.toNat_of_nonneg (le_of_lt hpos)
    have hq : ((interval.toNat : ℚ)) = (interval : ℚ) := by
      rw [← Int.cast_natCast, hc]
    rw [hq, hc] at this
    exact this
  rw [e1, e2]
  unfold windowStartSec
  have h1 := (tdiv_pos_cases ms 1000 (by norm_num)).1 hms
  rw [h1]
  have h2 := (tdiv_pos_cases (ms / 1000) interval hpos).1 (by omega)
  rw [h2]

theorem windowStartSec_idem (ms : Int) :
    windowStartSec (windowStartSec ms 300 * 1000) 300 = windowStartSec ms 300 := by
  unfold windowStartSec
  rw [Int.mul_tdiv_cancel _ (by norm_num : (1000 : Int) ≠ 0),
    Int.mul_tdiv_cancel _ (by norm_num : (300 : Int) ≠ 0)]

/-- With the fixed interval of 300 seconds `intervalTimestamp` never panics. -/
theorem intervalTimestamp_intervalSecs (t : Int) :
    ∃ r, intervalTimestamp t intervalSecs = some r := by
  unfold intervalTimestamp intervalSecs
  rw [if_neg (by norm_num)]
  exact ⟨_, rfl⟩

/-! ## Counter maps -/

theorem get_insert_self (agg : OutputCounts) (k : RecordKey) (v : CountFields) :
    OutputCounts.get (agg.insert k v) k = v := by
  unfold OutputCounts.get
  rw [AList.lookup_insert]
  rfl

theorem get_insert_of_ne (agg : OutputCounts) {k k' : RecordKey} (v : CountFields)
    (h : k ≠ k') : OutputCounts.get (agg.insert k' v) k = agg.get k := by
  unfold OutputCounts.get
  rw [AList.lookup_insert_ne h]

theorem get_erase_self (agg : OutputCounts) (k : RecordKey) :
    OutputCounts.get (agg.erase k) k = CountFields.zero := by
  unfold OutputCounts.get
  rw [AList.lookup_erase]
  rfl

theorem get_erase_of_ne (agg : OutputCounts) {k k' : RecordKey} (h : k ≠ k') :
    OutputCounts.get (agg.erase k') k = agg.get k := by
  unfold OutputCounts.get
  rw [AList.lookup_erase_ne h]

theorem get_empty (k : RecordKey) : (∅ : OutputCounts).get k = CountFields.zero := by
  unfold OutputCounts.get
  rw [AList.lookup_empty]
  rfl

/-- A map without keys is the empty map. -/
theorem eq_empty_of_forall_not_mem (agg : OutputCounts) (h : ∀ k, k ∉ agg) : agg = ∅ := by
  apply AList.ext
  rw [AList.empty_entries]
  apply List.eq_nil_iff_forall_not_mem.mpr
  intro e he
  apply h e.1
  rw [AList.mem_keys]
  unfold AList.keys List.keys
  exact List.mem_map_of_mem Sigma.fst he

/-! ## `countEvent` and `addCount` -/

/-- The aggregation key that `countEvent` builds, and the map it returns. -/
theorem countEvent_eq (agg : OutputCounts) (c r t : Int) :
    ∃ ts tsMs tm, intervalTimestamp t intervalSecs = some (ts, tsMs, tm) ∧
      countEvent agg c r t =
        some (AList.insert (⟨c, r, intervalStr, ts⟩ : RecordKey)
          ⟨wrap64 (((agg.lookup ⟨c, r, intervalStr, ts⟩).getD ⟨0, tsMs, tm⟩).count + 1),
            ((agg.lookup ⟨c, r, intervalStr, ts⟩).getD ⟨0, tsMs, tm⟩).intervalTs,
            ((agg.lookup ⟨c, r, intervalStr, ts⟩).getD ⟨0, tsMs, tm⟩).intervalTm⟩ agg) := by
  obtain ⟨⟨ts, tsMs, tm⟩, h⟩ := intervalTimestamp_intervalSecs t
  refine ⟨ts, tsMs, tm, h, ?_⟩
  unfold countEvent
  rw [h]
  simp only
  cases hl : agg.lookup ⟨c, r, intervalStr, ts⟩ with
  | none =>
    simp only [Option.isSome_none, Bool.false_eq_true, if_false, Option.getD_none]
    rw [get_insert_self, AList.insert_insert]
  | some v =>
    simp only [Option.isSome_some, if_true, Option.getD_some]
    unfold OutputCounts.get
    rw [hl]
    rfl

theorem addCount_eq_decodeEvent (pf : String → Bool) (agg : OutputCounts) (topic : String)
    (msg : Payload) :
    addCount pf agg topic msg =
      match decodeEvent pf topic msg with
      | none => some agg
      | some (c, r, t) => countEvent agg c r t := by
  unfold addCount decodeEvent
  split_ifs
  · cases unmarshal BidFields.zero (BidFields.setMember pf) msg <;> rfl
  · cases unmarshal WinFields.zero (WinFields.setMember pf) msg <;> rfl
  · cases unmarshal PixelFields.zero PixelFields.setMember msg <;> rfl
  · cases unmarshal ClickFields.zero ClickFields.setMember msg <;> rfl
  · rfl

/-- What `addCount` does: a message that maps to no key leaves the map as it is; a message
that maps to `k` sets the entry of `k` to its old value (a fresh entry with count 0 when
`k` is absent) with the count incremented. -/
theorem addCount_cases (pf : String → Bool) (agg : OutputCounts) (topic : String)
    (msg : Payload) :
    (messageKey pf topic msg = none ∧ addCount pf agg topic msg = some agg) ∨
    (∃ k tsMs tm, messageKey pf topic msg = some k ∧
      addCount pf agg topic msg =
        some (AList.insert k
          ⟨wrap64 (((agg.lookup k).getD ⟨0, tsMs, tm⟩).count + 1),
            ((agg.lookup k).getD ⟨0, tsMs, tm⟩).intervalTs,
            ((agg.lookup k).getD ⟨0, tsMs, tm⟩).intervalTm⟩ agg)) := by
  rw [addCount_eq_decodeEvent]
  unfold messageKey
  cases hd : decodeEvent pf topic msg with
  | none => left; exact ⟨rfl, rfl⟩
  | some e =>
    obtain ⟨c, r, t⟩ := e
    right
    obtain ⟨ts, tsMs, tm, h1, h2⟩ := countEvent_eq agg c r t
    refine ⟨⟨c, r, intervalStr, ts⟩, tsMs, tm, ?_, ?_⟩
    · simp only [h1]
    · simp only [h2]

/-- The count of every key after one `addCount`. -/
theorem addCount_count (pf : String → Bool) (agg : OutputCounts) (topic : String)
    (msg : Payload) :
    ∃ agg1, addCount pf agg topic msg = some agg1 ∧
      ∀ k, (OutputCounts.get agg1 k).count =
        if messageKey pf topic msg = some k then wrap64 ((agg.get k).count + 1)
        else (agg.get k).count := by
  rcases addCount_cases pf agg topic msg with ⟨h1, h2⟩ | ⟨k0, tsMs, tm, h1, h2⟩
  · refine ⟨agg, h2, ?_⟩
    intro k
    rw [h1]
    simp
  · refine ⟨_, h2, ?_⟩
    intro k
    rw [h1]
    by_cases hk : k0 = k
    · subst hk
      rw [if_pos rfl, get_insert_self]
      unfold OutputCounts.get
      cases agg.lookup k0 <;> rfl
    · rw [if_neg (by simpa using hk), get_insert_of_ne _ _ (Ne.symm hk)]

theorem iterate_wrap_succ (n : Nat) (c : Int) (h0 : 0 ≤ c) (h1 : c + n < 2 ^ 63) :
    (fun x => wrap64 (x + 1))^[n] c = c + n := by
  induction n generalizing c with
  | zero => simp
  | succ n ih =>
    rw [Function.iterate_succ_apply]
    have hw : wrap64 (c + 1) = c + 1 := by
      apply wrap64_of_inInt64
      unfold inInt64
      push_cast at h1
      omega
    rw [hw, ih (c + 1) (by omega) (by push_cast at h1 ⊢; omega)]
    push_cast
    ring

/-! ## The message loop -/

/-- One message: the loop goes on from stores in which the count of each key in each
category is incremented exactly when the message is of the category and maps to the key. -/
theorem consumeMessages_cons (pf : String → Bool) (s : Stores) (m : Message)
    (rest : List Message) (hm : knownTopic m.topic) :
    ∃ s1, consumeMessages pf s (m :: rest) = consumeMessages pf s1 rest ∧
      ∀ (c : Category) (k : RecordKey), (OutputCounts.get (s1.of c) k).count =
        if m.topic = c.topic ∧ messageKey pf m.topic m.value = some k
        then wrap64 ((OutputCounts.get (s.of c) k).count + 1)
        else (OutputCounts.get (s.of c) k).count := by
  rcases hm with h | h | h | h
  · obtain ⟨a, ha, hc⟩ := addCount_count pf s.aggBids m.topic m.value
    refine ⟨{ s with aggBids := a }, ?_, ?_⟩
    · simp only [consumeMessages, h, if_true]
      rw [h] at ha
      rw [ha]
      rfl
    · intro c k
      cases c <;> simp only [Stores.of, Category.topic, h, hc k] <;> simp [h]
  · obtain ⟨a, ha, hc⟩ := addCount_count pf s.aggWins m.topic m.value
    refine ⟨{ s with aggWins := a }, ?_, ?_⟩
    · simp only [consumeMessages, h, if_true]
      rw [h] at ha
      rw [ha]
      rfl
    · intro c k
      cases c <;> simp only [Stores.of, Category.topic, h, hc k] <;> simp [h]
  · obtain ⟨a, ha, hc⟩ := addCount_count pf s.aggPixels m.topic m.value
    refine ⟨{ s with aggPixels := a }, ?_, ?_⟩
    · simp only [consumeMessages, h, if_true]
      rw [h] at ha
      rw [ha]
      rfl
    · intro c k
      cases c <;> simp only [Stores.of, Category.topic, h, hc k] <;> simp [h]
  · obtain ⟨a, ha, hc⟩ := addCount_count pf s.aggClicks m.topic m.value
    refine ⟨{ s with aggClicks := a }, ?_, ?_⟩
    · simp only [consumeMessages, h, if_true]
      rw [h] at ha
      rw [ha]
      rfl
    · intro c k
      cases c <;> simp only [Stores.of, Category.topic, h, hc k] <;> simp [h]

/-- The message loop never panics on known topics, and it increments the count of each
key in each category once per message of the category that maps to the key. -/
theorem consumeMessages_counts (pf : String → Bool) (msgs : List Message) :
    ∀ s : Stores, (∀ m ∈ msgs, knownTopic m.topic) →
    ∃ s1, consumeMessages pf s msgs = some s1 ∧
      ∀ (c : Category) (k : RecordKey), (OutputCounts.get (s1.of c) k).count =
        (fun x => wrap64 (x + 1))^[hits pf c k msgs] (OutputCounts.get (s.of c) k).count := by
  induction msgs with
  | nil =>
    intro s _
    exact ⟨s, rfl, fun c k => rfl⟩
  | cons m rest ih =>
    intro s hall
    obtain ⟨s1, h1, hc1⟩ :=
      consumeMessages_cons pf s m rest (hall m (List.mem_cons_self _ _))
    obtain ⟨s2, h2, hc2⟩ := ih s1 (fun x hx => hall x (List.mem_cons_of_mem _ hx))
    refine ⟨s2, by rw [h1, h2], ?_⟩
    intro c k
    rw [hc2 c k, hc1 c k]
    have hh : hits pf c k (m :: rest) = hits pf c k rest +
        (if m.topic = c.topic ∧ messageKey pf m.topic m.value = some k then 1 else 0) := by
      unfold hits
      rw [List.countP_cons]
      simp only [decide_eq_true_eq]
    rw [hh]
    by_cases hcond : m.topic = c.topic ∧ messageKey pf m.topic m.value = some k
    · rw [if_pos hcond, if_pos hcond, Function.iterate_succ_apply]
    · rw [if_neg hcond, if_neg hcond]
      rfl

theorem hits_le_length (pf : String → Bool) (c : Category) (k : RecordKey)
    (msgs : List Message) : hits pf c k msgs ≤ msgs.length := by
  unfold hits
  exact List.countP_le_length _

/-! ## The flush pass -/

theorem aggRecord_delete_of_ne (db : RefData) (clock : RecordKey → Time × Time) (s : Stores)
    {k k' : RecordKey} (h : k ≠ k') :
    aggRecord db clock (s.delete k') k = aggRecord db clock s k := by
  unfold aggRecord Stores.delete
  simp only [get_erase_of_ne _ h]

/-- A flush pass over distinct keys emits, in the order of the pass, the record of each key
as built from the stores the pass started from. -/
theorem writeAggregatedRecords_records (db : RefData) (clock : RecordKey → Time × Time)
    (allkeys : List RecordKey) :
    ∀ s : Stores, allkeys.Nodup →
      (writeAggregatedRecords db clock allkeys s).1 = allkeys.map (aggRecord db clock s) := by
  induction allkeys with
  | nil => intro s _; rfl
  | cons k rest ih =>
    intro s hnd
    rw [List.nodup_cons] at hnd
    simp only [writeAggregatedRecords, List.map_cons]
    rw [ih (s.delete k) hnd.2]
    congr 1
    apply List.map_congr_left
    intro k' hk'
    apply aggRecord_delete_of_ne
    rintro rfl
    exact hnd.1 hk'

/-- After a flush pass, a key of the pass is absent from every store and any other key
has the entries it had. -/
theorem writeAggregatedRecords_lookup (db : RefData) (clock : RecordKey → Time × Time)
    (allkeys : List RecordKey) :
    ∀ (s : Stores) (c : Category) (k : RecordKey),
      ((writeAggregatedRecords db clock allkeys s).2.of c).lookup k =
        if k ∈ allkeys then none else (s.of c).lookup k := by
  induction allkeys with
  | nil => intro s c k; simp [writeAggregatedRecords]
  | cons k0 rest ih =>
    intro s c k
    simp only [writeAggregatedRecords]
    rw [ih (s.delete k0) c k]
    by_cases hk : k ∈ rest
    · simp [hk]
    · by_cases h0 : k = k0
      · subst h0
        simp only [hk, if_false, List.mem_cons, true_or, if_true]
        cases c <;> simp only [Stores.of, Stores.delete, AList.lookup_erase]
      · simp only [hk, if_false, List.mem_cons, h0, or_self]
        cases c <;> simp only [Stores.of, Stores.delete, AList.lookup_erase_ne h0]

theorem Stores.ext_of (s t : Stores) (h : ∀ c : Category, s.of c = t.of c) : s = t := by
  have h1 := h .bid
  have h2 := h .win
  have h3 := h .pixel
  have h4 := h .click
  simp only [Stores.of] at h1 h2 h3 h4
  cases s
  cases t
  simp_all

/-! ## Key selection -/

theorem setMapKeys_mem (mymaps : OutputCounts) (tsMs : Int) (sendAll : Bool) :
    ∀ (set : List RecordKey) (k : RecordKey),
      k ∈ setMapKeys set mymaps tsMs sendAll ↔
        k ∈ set ∨ ∃ f, mymaps.lookup k = some f ∧ (sendAll = true ∨ f.intervalTs ≤ tsMs) := by
  have key : ∀ (l : List (Sigma fun _ : RecordKey => CountFields)) (set : List RecordKey)
      (k : RecordKey),
      k ∈ l.foldl (fun acc e =>
          if sendAll || decide (e.2.intervalTs ≤ tsMs) then acc.insert e.1 else acc) set ↔
        k ∈ set ∨ ∃ f, (⟨k, f⟩ : Sigma fun _ : RecordKey => CountFields) ∈ l ∧
          (sendAll = true ∨ f.intervalTs ≤ tsMs) := by
    intro l
    induction l with
    | nil => intro set k; simp
    | cons e rest ih =>
      intro set k
      rw [List.foldl_cons, ih]
      obtain ⟨ek, ef⟩ := e
      by_cases hsel : (sendAll || decide (ef.intervalTs ≤ tsMs)) = true
      · rw [if_pos hsel, List.mem_insert_iff]
        simp only [Bool.or_eq_true, decide_eq_true_eq] at hsel
        constructor
        · rintro ((rfl | h) | ⟨f, hf, hc⟩)
          · exact Or.inr ⟨ef, List.mem_cons_self _ _, hsel⟩
          · exact Or.inl h
          · exact Or.inr ⟨f, List.mem_cons_of_mem _ hf, hc⟩
        · rintro (h | ⟨f, hf, hc⟩)
          · exact Or.inl (Or.inr h)
          · rw [List.mem_cons] at hf
            rcases hf with hf | hf
            · left; left
              exact congrArg Sigma.fst hf
            · exact Or.inr ⟨f, hf, hc⟩
      · rw [if_neg hsel]
        simp only [Bool.or_eq_true, decide_eq_true_eq] at hsel
        constructor
        · rintro (h | ⟨f, hf, hc⟩)
          · exact Or.inl h
          · exact Or.inr ⟨f, List.mem_cons_of_mem _ hf, hc⟩
        · rintro (h | ⟨f, hf, hc⟩)
          · exact Or.inl h
          · rw [List.mem_cons] at hf
            rcases hf with hf | hf
            · exfalso
              apply hsel
              have h2 : f = ef := by
                have := congrArg (fun x : Sigma fun _ : RecordKey => CountFields => x.2) hf
                exact this
              rw [← h2]
              exact hc
            · exact Or.inr ⟨f, hf, hc⟩
  intro set k
  unfold setMapKeys
  rw [key]
  simp only [← AList.mem_lookup_iff, Option.mem_def]

theorem setMapKeys_nodup (mymaps : OutputCounts) (tsMs : Int) (sendAll : Bool) :
    ∀ set : List RecordKey, set.Nodup → (setMapKeys set mymaps tsMs sendAll).Nodup := by
  unfold setMapKeys
  generalize mymaps.entries = l
  induction l with
  | nil => intro set h; exact h
  | cons e rest ih =>
    intro set h
    rw [List.foldl_cons]
    apply ih
    split_ifs
    · exact h.insert
    · exact h

/-! ## Decimal text and the number parser -/

theorem digitChar_spec :
    ∀ d, d < 10 → (Nat.digitChar d).isDigit = true ∧ (Nat.digitChar d).toNat - 48 = d := by
  decide

theorem parseDigits_cons_digit (acc d : Nat) (hd : d < 10) (cs : List Char) :
    parseDigits acc (Nat.digitChar d :: cs) = parseDigits (acc * 10 + d) cs := by
  obtain ⟨h1, h2⟩ := digitChar_spec d hd
  simp only [parseDigits, h1, if_true, h2]

/-- The digits that `Nat.toDigitsCore` puts in front of `ds` are read back by
`parseDigits` as the number they were made from. -/
theorem toDigitsCore_spec (fuel : Nat) :
    ∀ (n : Nat) (ds : List Char), n < fuel →
      ∃ L : List Char, Nat.toDigitsCore 10 fuel n ds = L ++ ds ∧
        (∃ d, d < 10 ∧ L.head? = some (Nat.digitChar d)) ∧
        ∀ (acc : Nat) (rest : List Char),
          parseDigits acc (L ++ rest) = parseDigits (acc * 10 ^ L.length + n) rest := by
  induction fuel with
  | zero => intro n ds h; omega
  | succ fuel ih =>
    intro n ds hn
    simp only [Nat.toDigitsCore]
    by_cases h0 : n / 10 = 0
    · rw [if_pos h0]
      refine ⟨[Nat.digitChar (n % 10)], rfl, ⟨n % 10, Nat.mod_lt _ (by norm_num), rfl⟩, ?_⟩
      intro acc rest
      have hlt : n < 10 := by omega
      have hmod : n % 10 = n := Nat.mod_eq_of_lt hlt
      rw [hmod]
      simp only [List.singleton_append, List.length_singleton, pow_one]
      exact parseDigits_cons_digit acc n hlt rest
    · rw [if_neg h0]
      have hlt : n / 10 < fuel := by omega
      obtain ⟨L, hL, hhead, hparse⟩ := ih (n / 10) (Nat.digitChar (n % 10) :: ds) hlt
      refine ⟨L ++ [Nat.digitChar (n % 10)], ?_, ?_, ?_⟩
      · rw [hL]
        simp
      · obtain ⟨d, hd, hd2⟩ := hhead
        refine ⟨d, hd, ?_⟩
        cases L with
        | nil => simp at hd2
        | cons x xs => simpa using hd2
      · intro acc rest
        rw [List.append_assoc, hparse]
        simp only [List.singleton_append, List.length_append, List.length_singleton]
        rw [parseDigits_cons_digit _ _ (Nat.mod_lt _ (by norm_num))]
        congr 1
        rw [pow_succ]
        have := Nat.div_add_mod n 10
        nlinarith

theorem toDigits_spec (n : Nat) :
    (∃ d cs, d < 10 ∧ Nat.toDigits 10 n = Nat.digitChar d :: cs) ∧
      parseDigits 0 (Nat.toDigits 10 n) = some n := by
  obtain ⟨L, hL, ⟨d, hd, hhead⟩, hparse⟩ := toDigitsCore_spec (n + 1) n [] (Nat.lt_succ_self n)
  unfold Nat.toDigits
  rw [hL, List.append_nil]
  constructor
  · cases L with
    | nil => simp at hhead
    | cons x xs =>
      simp only [List.head?_cons, Option.some.injEq] at hhead
      exact ⟨d, xs, hd, by rw [hhead]⟩
  · have := hparse 0 []
    rw [List.append_nil] at this
    rw [this]
    simp [parseDigits]

theorem digitChar_ne_signs : ∀ d, d < 10 →
    Nat.digitChar d ≠ '-' ∧ Nat.digitChar d ≠ '+' ∧ Nat.digitChar d ≠ 'n' := by
  decide

/-- Reading back the decimal text of an `int64`. -/
theorem parseInt_decimal (n : Int) (hn : inInt64 n) : parseInt (decimal n) = some n := by
  obtain ⟨⟨d, cs, hd, hcs⟩, hparse⟩ := toDigits_spec n.natAbs
  obtain ⟨hdig, _⟩ := digitChar_spec d hd
  obtain ⟨hm, hp, _⟩ := digitChar_ne_signs d hd
  unfold inInt64 at hn
  unfold parseInt decimal
  by_cases hneg : n < 0
  · simp only [String.toList, hneg, if_true, List.singleton_append, true_or, decide_True]
    rw [if_neg (by rw [hcs]; simp), hparse]
    simp only
    rw [if_pos (by omega)]
    congr 1
    omega
  · simp only [String.toList, hneg, if_false, List.nil_append, hcs]
    simp only [hm, hp, or_self, if_false, decide_False, Bool.false_eq_true]
    rw [if_neg (by simp), ← hcs, hparse]
    simp only
    rw [if_pos (by omega)]
    congr 1
    omega

theorem startsNumber_decimal (n : Int) : startsNumber (decimal n) = true := by
  obtain ⟨⟨d, cs, hd, hcs⟩, _⟩ := toDigits_spec n.natAbs
  obtain ⟨hdig, _⟩ := digitChar_spec d hd
  unfold startsNumber decimal
  by_cases hneg : n < 0
  · simp [String.toList, hneg]
  · simp [String.toList, hneg, hcs, hdig]

theorem decimal_ne_null (n : Int) : decimal n ≠ "null" := by
  obtain ⟨⟨d, cs, hd, hcs⟩, _⟩ := toDigits_spec n.natAbs
  obtain ⟨_, _, hnn⟩ := digitChar_ne_signs d hd
  intro h
  have h2 : (decimal n).toList = "null".toList := by rw [h]
  unfold decimal at h2
  by_cases hneg : n < 0
  · simp [String.toList, hneg] at h2
  · simp only [String.toList, hneg, if_false, List.nil_append, hcs] at h2
    have h3 : Nat.digitChar d = 'n' := by
      have := List.head_eq_of_cons_eq h2
      exact this
    exact hnn h3

/-- A `,string` identifier field takes the decimal text of an `int64` from a JSON string. -/
theorem storeQuotedInt64_decimal (old n : Int) (hn : inInt64 n) :
    storeQuotedInt64 old (.string (decimal n)) = some n := by
  simp only [storeQuotedInt64]
  rw [if_neg (decimal_ne_null n), if_pos (startsNumber_decimal n), parseInt_decimal n hn]

/-- A `,string` identifier field rejects every unquoted JSON number. -/
theorem storeQuotedInt64_number (old : Int) (literal : String) :
    storeQuotedInt64 old (.number literal) = none := rfl

theorem foldlM_none_of_mem {α β : Type} (f : α → β → Option α) (b : β)
    (hb : ∀ a, f a b = none) :
    ∀ (l : List β) (a : α), b ∈ l → l.foldlM f a = none := by
  intro l
  induction l with
  | nil => intro a h; simp at h
  | cons x xs ih =>
    intro a h
    rw [List.foldlM_cons]
    rw [List.mem_cons] at h
    rcases h with h | h
    · subst h
      rw [hb a]
      rfl
    · cases hx : f a x with
      | none => rfl
      | some a1 => exact ih a1 h

theorem windowStartSec_between (ms interval : Int) (hpos : 0 < interval) :
    (0 ≤ ms → 0 ≤ windowStartSec ms interval * 1000 ∧ windowStartSec ms interval * 1000 ≤ ms) ∧
    (ms < 0 → ms ≤ windowStartSec ms interval * 1000 ∧ windowStartSec ms interval * 1000 ≤ 0) := by
  unfold windowStartSec
  obtain ⟨a1, a2⟩ := tdiv_toward_zero ms 1000 (by norm_num)
  obtain ⟨b1, b2⟩ := tdiv_toward_zero (ms.tdiv 1000) interval hpos
  constructor
  · intro h
    obtain ⟨p1, p2, p3⟩ := a1 h
    obtain ⟨q1, q2, q3⟩ := b1 p1
    have : 0 ≤ (ms.tdiv 1000).tdiv interval * interval := mul_nonneg q1 (le_of_lt hpos)
    constructor <;> omega
  · intro h
    obtain ⟨p1, p2, p3⟩ := a2 h
    rcases le_or_lt 0 (ms.tdiv 1000) with h0 | h0
    · have hz : ms.tdiv 1000 = 0 := by omega
      rw [hz]
      simp
      omega
    · obtain ⟨q1, q2, q3⟩ := b2 h0
      have : (ms.tdiv 1000).tdiv interval * interval ≤ 0 :=
        mul_nonpos_of_nonpos_of_nonneg q1 (le_of_lt hpos)
      constructor <;> omega

/-! ## The claims -/

/-- The records that a flush pass builds after a sequence of messages: their counts are the
numbers of messages of each category that map to the key. -/
theorem built_counts_eq_message_counts (pf : String → Bool) (db : RefData)
    (clock : RecordKey → Time × Time) (msgs : List Message)
    (htopics : ∀ m ∈ msgs, knownTopic m.topic) (hlen : msgs.length < 2 ^ 63) :
    ∃ s, consumeMessages pf Stores.init msgs = some s ∧
      ∀ allkeys : List RecordKey, allkeys.Nodup →
        (writeAggregatedRecords db clock allkeys s).1.map
            (fun r => (r.CampaignID, r.CreativeID, r.Bids, r.Wins, r.Pixels, r.Clicks)) =
          allkeys.map (fun k => (k.CampaignID, k.CreativeID,
            ((hits pf .bid k msgs : Nat) : Int), ((hits pf .win k msgs : Nat) : Int),
            ((hits pf .pixel k msgs : Nat) : Int), ((hits pf .click k msgs : Nat) : Int))) := by
  obtain ⟨s, hs, hcount⟩ := consumeMessages_counts pf msgs Stores.init htopics
  refine ⟨s, hs, ?_⟩
  intro allkeys hnd
  have hc : ∀ (c : Category) (k : RecordKey),
      (OutputCounts.get (s.of c) k).count = ((hits pf c k msgs : Nat) : Int) := by
    intro c k
    rw [hcount c k]
    have h0 : (OutputCounts.get (Stores.init.of c) k).count = 0 := by
      cases c <;> rfl
    rw [h0, iterate_wrap_succ _ 0 (le_refl 0)]
    · simp
    · have := hits_le_length pf c k msgs
      have h2 : ((hits pf c k msgs : Nat) : Int) < 2 ^ 63 := by
        have : hits pf c k msgs < 2 ^ 63 := lt_of_le_of_lt this hlen
        exact_mod_cast this
      omega
  rw [writeAggregatedRecords_records db clock allkeys s hnd, List.map_map]
  apply List.map_congr_left
  intro k _
  have hb := hc .bid k
  have hw := hc .win k
  have hp := hc .pixel k
  have hk := hc .click k
  simp only [Stores.of] at hb hw hp hk
  simp only [Function.comp, aggRecord, hb, hw, hp, hk]

theorem marshalAggCounter_map {β : Type} (zone : Int → Int) (g : AggCounter → β)
    (r : AggCounter) :
    (marshalAggCounter zone r).map g = if r.marshals zone then some (g r) else none := by
  unfold marshalAggCounter
  split_ifs <;> rfl

/-- C1 (as amended). Starting from the four empty counter stores, after any sequence of
fewer than 2^63 messages of the topics bids, wins, pixels and clicks has been applied with
`addCount` one after another, a flush pass over any set of distinct keys builds for each
key one record whose `Bids`, `Wins`, `Pixels` and `Clicks` are the numbers of messages of
the category that map to the key (0 when there is none), and it emits that record for the
key whenever `json.Marshal` accepts the record, that is when the years of its timestamp
and of its emission time are in the range 0 to 9999; otherwise the text emitted for the
key is empty. -/
theorem flushed_counts_eq_message_counts (pf : String → Bool) (zone : Int → Int)
    (db : RefData) (clock : RecordKey → Time × Time) (msgs : List Message)
    (htopics : ∀ m ∈ msgs, knownTopic m.topic) (hlen : msgs.length < 2 ^ 63) :
    ∃ s, consumeMessages pf Stores.init msgs = some s ∧
      ∀ allkeys : List RecordKey, allkeys.Nodup →
        (writeAggregatedRecords db clock allkeys s).1.map
            (fun r => (r.CampaignID, r.CreativeID, r.Bids, r.Wins, r.Pixels, r.Clicks)) =
          allkeys.map (fun k => (k.CampaignID, k.CreativeID,
            ((hits pf .bid k msgs : Nat) : Int), ((hits pf .win k msgs : Nat) : Int),
            ((hits pf .pixel k msgs : Nat) : Int), ((hits pf .click k msgs : Nat) : Int))) ∧
        (loggedRecords zone db clock allkeys s).map
            (Option.map
              (fun r => (r.CampaignID, r.CreativeID, r.Bids, r.Wins, r.Pixels, r.Clicks))) =
          allkeys.map (fun k =>
            if (aggRecord db clock s k).marshals zone then
              some (k.CampaignID, k.CreativeID,
                ((hits pf .bid k msgs : Nat) : Int), ((hits pf .win k msgs : Nat) : Int),
                ((hits pf .pixel k msgs : Nat) : Int), ((hits pf .click k msgs : Nat) : Int))
            else none) := by
  obtain ⟨s, hs, hbuilt⟩ := built_counts_eq_message_counts pf db clock msgs htopics hlen
  refine ⟨s, hs, ?_⟩
  intro allkeys hnd
  refine ⟨hbuilt allkeys hnd, ?_⟩
  have hrec := writeAggregatedRecords_records db clock allkeys s hnd
  have hb := hbuilt allkeys hnd
  rw [hrec, List.map_map] at hb
  unfold loggedRecords
  rw [hrec, List.map_map, List.map_map]
  apply List.map_congr_left
  intro k hk
  have hk2 := List.map_inj_left.mp hb k hk
  simp only [Function.comp] at hk2 ⊢
  rw [marshalAggCounter_map, hk2]

/-- C2. On a tick at a clock reading `nowUnix` within 2^53 seconds of the epoch,
`writeLastInterval` selects exactly the keys that have, in one of the four stores, an
entry whose `intervalTs` is at most the boundary `start - 300000`, where `start` is the
window start that `intervalTimestamp` gives for now (for a clock not before the epoch,
`floor(nowUnix / 300) * 300 * 1000`). A key whose entries all have the window start of
now is not selected. -/
theorem tick_selects_keys_up_to_boundary (nowUnix : Int) (s : Stores)
    (hnow : -(2 ^ 53) ≤ nowUnix ∧ nowUnix ≤ 2 ^ 53) :
    ∃ label start tm allkeys,
      intervalTimestamp (nowUnix * 1000) intervalSecs = some (label, start, tm) ∧
      lastIntervalKeys nowUnix s = some allkeys ∧
      (∀ k, k ∈ allkeys ↔
        ∃ c f, (s.of c).lookup k = some f ∧ f.intervalTs ≤ start - intervalSecs * 1000) ∧
      (∀ k, (∀ c f, (s.of c).lookup k = some f → f.intervalTs = start) → k ∉ allkeys) ∧
      (0 ≤ nowUnix → start = ⌊(nowUnix : ℚ) / 300⌋ * 300 * 1000) := by
  have hms : inInt64 (nowUnix * 1000) := by
    unfold inInt64
    constructor <;> omega
  have hpos : (0 : Int) < intervalSecs := by unfold intervalSecs; norm_num
  have hit := intervalTimestamp_eq (nowUnix * 1000) intervalSecs hms hpos
  obtain ⟨hb1, hb2⟩ := windowStartSec_between (nowUnix * 1000) intervalSecs hpos
  have hbound : -(2 ^ 53 * 1000) ≤ windowStartSec (nowUnix * 1000) intervalSecs * 1000 ∧
      windowStartSec (nowUnix * 1000) intervalSecs * 1000 ≤ 2 ^ 53 * 1000 := by
    rcases le_or_lt 0 (nowUnix * 1000) with h | h
    · have := hb1 h
      constructor <;> omega
    · have := hb2 h
      constructor <;> omega
  have hsel : ∀ k, k ∈ setMapKeys (setMapKeys (setMapKeys (setMapKeys [] s.aggBids
        (windowStartSec (nowUnix * 1000) intervalSecs * 1000 - intervalSecs * 1000) false)
        s.aggWins (windowStartSec (nowUnix * 1000) intervalSecs * 1000 - intervalSecs * 1000)
        false) s.aggPixels
        (windowStartSec (nowUnix * 1000) intervalSecs * 1000 - intervalSecs * 1000) false)
        s.aggClicks (windowStartSec (nowUnix * 1000) intervalSecs * 1000 - intervalSecs * 1000)
        false ↔
      ∃ c f, (s.of c).lookup k = some f ∧
        f.intervalTs ≤ windowStartSec (nowUnix * 1000) intervalSecs * 1000 -
          intervalSecs * 1000 := by
    intro k
    simp only [setMapKeys_mem, List.not_mem_nil, false_or, Bool.false_eq_true]
    constructor
    · rintro (((⟨f, h1, h2⟩ | ⟨f, h1, h2⟩) | ⟨f, h1, h2⟩) | ⟨f, h1, h2⟩)
      · exact ⟨.bid, f, h1, h2⟩
      · exact ⟨.win, f, h1, h2⟩
      · exact ⟨.pixel, f, h1, h2⟩
      · exact ⟨.click, f, h1, h2⟩
    · rintro ⟨c, f, h1, h2⟩
      cases c
      · exact Or.inl (Or.inl (Or.inl ⟨f, h1, h2⟩))
      · exact Or.inl (Or.inl (Or.inr ⟨f, h1, h2⟩))
      · exact Or.inl (Or.inr ⟨f, h1, h2⟩)
      · exact Or.inr ⟨f, h1, h2⟩
  refine ⟨_, _, _, _, hit, ?_, hsel, ?_, ?_⟩
  · unfold lastIntervalKeys
    rw [wrap64_of_inInt64 hms, hit]
    simp only
    have h1 : wrap64 (intervalSecs * 1000) = intervalSecs * 1000 := by
      apply wrap64_of_inInt64
      unfold intervalSecs inInt64
      norm_num
    rw [h1]
    have h2 : wrap64 (windowStartSec (nowUnix * 1000) intervalSecs * 1000 -
        intervalSecs * 1000) =
        windowStartSec (nowUnix * 1000) intervalSecs * 1000 - intervalSecs * 1000 := by
      apply wrap64_of_inInt64
      unfold inInt64
      unfold intervalSecs at hbound ⊢
      constructor <;> omega
    rw [h2]
  · intro k hk hmem
    obtain ⟨c, f, h1, h2⟩ := (hsel k).mp hmem
    have := hk c f h1
    unfold intervalSecs at h2 this
    omega
  · intro h0
    have e1 : ⌊(nowUnix : ℚ) / 300⌋ = nowUnix / 300 := by
      have := Rat.floor_intCast_div_natCast nowUnix 300
      simpa using this
    rw [e1]
    unfold windowStartSec intervalSecs
    rw [Int.mul_tdiv_cancel _ (by norm_num : (1000 : Int) ≠ 0),
      Int.tdiv_eq_ediv h0 (by norm_num)]

/-- C3 (as amended). On the shutdown signal, whatever the four counter stores hold, the
selected set is exactly the set of keys present in some store, without repetition; a flush
pass that visits the selected keys in any order builds exactly one record per key, the
record of that key, emits for each key one text, which is that record whenever
`json.Marshal` accepts it (the years of its timestamp and of its emission time are in the
range 0 to 9999) and is empty otherwise, and leaves all four stores empty. -/
theorem drain_flushes_every_key_once (zone : Int → Int) (db : RefData)
    (clock : RecordKey → Time × Time) (s : Stores) :
    (∀ k, k ∈ drainKeys s ↔ ∃ c, k ∈ s.of c) ∧
    (drainKeys s).Nodup ∧
    ∀ allkeys : List RecordKey, allkeys.Perm (drainKeys s) →
      (writeAggregatedRecords db clock allkeys s).1 = allkeys.map (aggRecord db clock s) ∧
      loggedRecords zone db clock allkeys s =
        allkeys.map (fun k =>
          if (aggRecord db clock s k).marshals zone then some (aggRecord db clock s k)
          else none) ∧
      (writeAggregatedRecords db clock allkeys s).2 = Stores.init := by
  have hmem : ∀ k, k ∈ drainKeys s ↔ ∃ c, k ∈ s.of c := by
    intro k
    unfold drainKeys
    simp only [setMapKeys_mem, List.not_mem_nil, false_or, true_or, and_true]
    have hiff : ∀ agg : OutputCounts, (∃ f, agg.lookup k = some f) ↔ k ∈ agg := by
      intro agg
      rw [← AList.lookup_isSome, Option.isSome_iff_exists]
    simp only [hiff]
    constructor
    · rintro (((h | h) | h) | h)
      · exact ⟨.bid, h⟩
      · exact ⟨.win, h⟩
      · exact ⟨.pixel, h⟩
      · exact ⟨.click, h⟩
    · rintro ⟨c, h⟩
      cases c
      · exact Or.inl (Or.inl (Or.inl h))
      · exact Or.inl (Or.inl (Or.inr h))
      · exact Or.inl (Or.inr h)
      · exact Or.inr h
  have hnd : (drainKeys s).Nodup := by
    unfold drainKeys
    exact setMapKeys_nodup _ _ _ _ (setMapKeys_nodup _ _ _ _ (setMapKeys_nodup _ _ _ _
      (setMapKeys_nodup _ _ _ _ List.nodup_nil)))
  refine ⟨hmem, hnd, ?_⟩
  intro allkeys hperm
  have hrec := writeAggregatedRecords_records db clock allkeys s (hperm.nodup_iff.mpr hnd)
  refine ⟨hrec, ?_, ?_⟩
  · unfold loggedRecords
    rw [hrec, List.map_map]
    rfl
  apply Stores.ext_of
  intro c
  have hinit : Stores.init.of c = ∅ := by cases c <;> rfl
  rw [hinit]
  apply eq_empty_of_forall_not_mem
  intro k
  rw [← AList.lookup_eq_none, writeAggregatedRecords_lookup]
  by_cases hk : k ∈ allkeys
  · rw [if_pos hk]
  · rw [if_neg hk, AList.lookup_eq_none]
    intro hin
    apply hk
    rw [hperm.mem_iff, hmem]
    exact ⟨c, hin⟩

/-- C9. After a flush pass over a set that contains the key `k`, whatever the stores held
before, `k` is absent from each store, and the next message that maps to `k` makes
`addCount` create an entry for `k` whose count is exactly 1. -/
theorem count_restarts_at_one_after_flush (pf : String → Bool) (db : RefData)
    (clock : RecordKey → Time × Time) (s : Stores) (allkeys : List RecordKey) (k : RecordKey)
    (topic : String) (msg : Payload) (hk : k ∈ allkeys)
    (hmsg : messageKey pf topic msg = some k) (c : Category) :
    ((writeAggregatedRecords db clock allkeys s).2.of c).lookup k = none ∧
    ∃ agg e, addCount pf ((writeAggregatedRecords db clock allkeys s).2.of c) topic msg =
        some agg ∧ agg.lookup k = some e ∧ e.count = 1 := by
  have hnone : ((writeAggregatedRecords db clock allkeys s).2.of c).lookup k = none := by
    rw [writeAggregatedRecords_lookup, if_pos hk]
  refine ⟨hnone, ?_⟩
  rcases addCount_cases pf ((writeAggregatedRecords db clock allkeys s).2.of c) topic msg with
    ⟨h1, _⟩ | ⟨k0, tsMs, tm, h1, h2⟩
  · rw [hmsg] at h1
    exact absurd h1 (by simp)
  · rw [hmsg] at h1
    have hk0 : k = k0 := by simpa using h1
    subst hk0
    refine ⟨_, _, h2, AList.lookup_insert _, ?_⟩
    rw [hnone]
    show wrap64 (0 + 1) = 1
    decide

set_option maxRecDepth 8000 in
theorem flushed_counts_witness :
    (∀ m ∈ [exampleBid, exampleWin], knownTopic m.topic) ∧
    [exampleBid, exampleWin].length < 2 ^ 63 ∧
    hits exampleParseFloatOK Category.bid exampleKey [exampleBid, exampleWin] = 1 ∧
    hits exampleParseFloatOK Category.win exampleKey [exampleBid, exampleWin] = 1 ∧
    hits exampleParseFloatOK Category.pixel exampleKey [exampleBid, exampleWin] = 0 ∧
    hits exampleParseFloatOK Category.click exampleKey [exampleBid, exampleWin] = 0 ∧
    (consumeMessages exampleParseFloatOK Stores.init [exampleBid, exampleWin]).map
      (fun s => loggedRecords exampleZone exampleDb exampleClock [exampleKey] s) =
      some [some ⟨10, 20, "5m", "EU", ⟨999999900, 0⟩, ⟨1000000600, 0⟩, 1, 1, 0, 0⟩] ∧
    ∃ s, consumeMessages exampleParseFloatOK Stores.init [exampleBid, exampleWin] = some s ∧
      ∀ allkeys : List RecordKey, allkeys.Nodup →
        (writeAggregatedRecords exampleDb exampleClock allkeys s).1.map
            (fun r => (r.CampaignID, r.CreativeID, r.Bids, r.Wins, r.Pixels, r.Clicks)) =
          allkeys.map (fun k => (k.CampaignID, k.CreativeID,
            ((hits exampleParseFloatOK .bid k [exampleBid, exampleWin] : Nat) : Int),
            ((hits exampleParseFloatOK .win k [exampleBid, exampleWin] : Nat) : Int),
            ((hits exampleParseFloatOK .pixel k [exampleBid, exampleWin] : Nat) : Int),
            ((hits exampleParseFloatOK .click k [exampleBid, exampleWin] : Nat) : Int))) ∧
        (loggedRecords exampleZone exampleDb exampleClock allkeys s).map
            (Option.map
              (fun r => (r.CampaignID, r.CreativeID, r.Bids, r.Wins, r.Pixels, r.Clicks))) =
          allkeys.map (fun k =>
            if (aggRecord exampleDb exampleClock s k).marshals exampleZone then
              some (k.CampaignID, k.CreativeID,
                ((hits exampleParseFloatOK .bid k [exampleBid, exampleWin] : Nat) : Int),
                ((hits exampleParseFloatOK .win k [exampleBid, exampleWin] : Nat) : Int),
                ((hits exampleParseFloatOK .pixel k [exampleBid, exampleWin] : Nat) : Int),
                ((hits exampleParseFloatOK .click k [exampleBid, exampleWin] : Nat) : Int))
            else none) :=
  ⟨by decide, by decide, by decide, by decide, by decide, by decide, by decide,
    flushed_counts_eq_message_counts exampleParseFloatOK exampleZone exampleDb exampleClock
      [exampleBid, exampleWin] (by decide) (by decide)⟩

set_option maxRecDepth 8000 in
/-- C1 fails as stated: the bid of `exampleFarBid`, whose window starts at
10000-01-01T00:00:00Z, is the one message that maps to its key, and the flush pass that
drains the stores emits the empty text for that key, not a record with a bid count of 1,
and deletes the counter. -/
theorem far_future_bid_not_flushed :
    messageKey exampleParseFloatOK exampleFarBid.topic exampleFarBid.value =
      some exampleFarKey ∧
    hits exampleParseFloatOK Category.bid exampleFarKey [exampleFarBid] = 1 ∧
    (consumeMessages exampleParseFloatOK Stores.init [exampleFarBid]).map
      (fun s => (drainKeys s,
        loggedRecords exampleZone exampleDb exampleClock (drainKeys s) s,
        (writeAggregatedRecords exampleDb exampleClock (drainKeys s) s).2.aggBids.keys)) =
      some ([exampleFarKey], [none], []) := by
  decide

theorem tick_selects_witness :
    (-(2 ^ 53) ≤ (1000000600 : Int) ∧ (1000000600 : Int) ≤ 2 ^ 53) ∧
    ∃ label start tm allkeys,
      intervalTimestamp (1000000600 * 1000) intervalSecs = some (label, start, tm) ∧
      lastIntervalKeys 1000000600 exampleStores = some allkeys ∧
      (∀ k, k ∈ allkeys ↔
        ∃ c f, (exampleStores.of c).lookup k = some f ∧
          f.intervalTs ≤ start - intervalSecs * 1000) ∧
      (∀ k, (∀ c f, (exampleStores.of c).lookup k = some f → f.intervalTs = start) →
        k ∉ allkeys) ∧
      (0 ≤ (1000000600 : Int) → start = ⌊((1000000600 : Int) : ℚ) / 300⌋ * 300 * 1000) :=
  ⟨by decide, tick_selects_keys_up_to_boundary 1000000600 exampleStores (by decide)⟩

set_option maxRecDepth 8000 in
theorem drain_witness :
    (drainKeys exampleStores).Perm (drainKeys exampleStores) ∧
    drainKeys exampleStores = [exampleKey] ∧
    loggedRecords exampleZone exampleDb exampleClock (drainKeys exampleStores)
      exampleStores =
      [some ⟨10, 20, "5m", "EU", ⟨999999900, 0⟩, ⟨1000000600, 0⟩, 1, 1, 0, 0⟩] ∧
    (writeAggregatedRecords exampleDb exampleClock (drainKeys exampleStores) exampleStores).1 =
      (drainKeys exampleStores).map (aggRecord exampleDb exampleClock exampleStores) ∧
    loggedRecords exampleZone exampleDb exampleClock (drainKeys exampleStores) exampleStores =
      (drainKeys exampleStores).map (fun k =>
        if (aggRecord exampleDb exampleClock exampleStores k).marshals exampleZone then
          some (aggRecord exampleDb exampleClock exampleStores k)
        else none) ∧
    (writeAggregatedRecords exampleDb exampleClock (drainKeys exampleStores) exampleStores).2 =
      Stores.init :=
  ⟨List.Perm.refl _, by decide, by decide,
    (drain_flushes_every_key_once exampleZone exampleDb exampleClock exampleStores).2.2 _
      (List.Perm.refl _)⟩

set_option maxRecDepth 8000 in
/-- C3 fails as stated: in the stores that hold the one key of `exampleFarBid`, whose
window starts at 10000-01-01T00:00:00Z, the shutdown selects that key, the flush pass
emits the empty text for it and no record, and the stores are empty afterwards. -/
theorem drain_far_future_key_emits_no_record :
    drainKeys exampleFarStores = [exampleFarKey] ∧
    loggedRecords exampleZone exampleDb exampleClock (drainKeys exampleFarStores)
      exampleFarStores = [none] ∧
    ((writeAggregatedRecords exampleDb exampleClock (drainKeys exampleFarStores)
      exampleFarStores).2.aggBids.keys,
     (writeAggregatedRecords exampleDb exampleClock (drainKeys exampleFarStores)
      exampleFarStores).2.aggWins.keys,
     (writeAggregatedRecords exampleDb exampleClock (drainKeys exampleFarStores)
      exampleFarStores).2.aggPixels.keys,
     (writeAggregatedRecords exampleDb exampleClock (drainKeys exampleFarStores)
      exampleFarStores).2.aggClicks.keys) = ([], [], [], []) := by
  decide

set_option maxRecDepth 8000 in
theorem count_restarts_witness :
    exampleKey ∈ [exampleKey] ∧
    messageKey exampleParseFloatOK exampleBid.topic exampleBid.value = some exampleKey ∧
    ((writeAggregatedRecords exampleDb exampleClock [exampleKey] exampleStores).2.of
      Category.bid).lookup exampleKey = none ∧
    ∃ agg e, addCount exampleParseFloatOK
        ((writeAggregatedRecords exampleDb exampleClock [exampleKey] exampleStores).2.of
          Category.bid) exampleBid.topic exampleBid.value = some agg ∧
      agg.lookup exampleKey = some e ∧ e.count = 1 :=
  ⟨by decide, by decide,
    count_restarts_at_one_after_flush exampleParseFloatOK exampleDb exampleClock exampleStores
      [exampleKey] exampleKey exampleBid.topic exampleBid.value (by decide) (by decide)
      Category.bid⟩

/-- C4. What `findCampaign` does on the snapshot with campaign 20 / banner 7 / region EU
and campaign 10 / banner 20 / region US: for campaign 10 and creative 20 its first loop
compares the creative identifier with the campaign identifier `ID` of the records and
returns the region EU of the record whose banner is 7, not the region US of the record
whose banner is 20; and with the second record alone, creative 20 of another campaign
finds nothing. -/
theorem findCampaign_compares_creative_with_campaign_id :
    findCampaign exampleDb 10 20 = ⟨⟨"EU", true⟩⟩ ∧
    exampleDb.dbCampaignBanners.filter (fun v => v.BannerID = 20) = [⟨10, 20, ⟨"US", true⟩⟩] ∧
    findCampaign ⟨[⟨10, 20, ⟨"US", true⟩⟩], []⟩ 11 20 = CampaignCreativeFields.zero := by
  decide

/-- C5 (as amended). The `interval` field of every emitted record is the `IntervalStr`
component of its key; for a key built by `addCount` that component is the fixed interval
name "5m", while the label returned by `intervalTimestamp` for the counted events is the
`IntervalTs` component of the key. -/
theorem record_interval_is_interval_name (pf : String → Bool) (db : RefData)
    (clock : RecordKey → Time × Time) (allkeys : List RecordKey) (s : Stores) :
    (writeAggregatedRecords db clock allkeys s).1.map (fun r => r.Interval) =
      allkeys.map (fun k => k.IntervalStr) ∧
    ∀ (topic : String) (msg : Payload) (k : RecordKey), messageKey pf topic msg = some k →
      k.IntervalStr = "5m" ∧
      ∃ c r t tsMs tm, decodeEvent pf topic msg = some (c, r, t) ∧
        intervalTimestamp t intervalSecs = some (k.IntervalTs, tsMs, tm) := by
  constructor
  · induction allkeys generalizing s with
    | nil => rfl
    | cons k rest ih =>
      simp only [writeAggregatedRecords, List.map_cons]
      rw [ih (s.delete k)]
      rfl
  · intro topic msg k hk
    unfold messageKey at hk
    cases hd : decodeEvent pf topic msg with
    | none => rw [hd] at hk; simp at hk
    | some e =>
      obtain ⟨c, r, t⟩ := e
      rw [hd] at hk
      obtain ⟨⟨ts, tsMs, tm⟩, hi⟩ := intervalTimestamp_intervalSecs t
      simp only [hi, Option.some.injEq] at hk
      subst hk
      exact ⟨rfl, c, r, t, tsMs, tm, rfl, hi⟩

set_option maxRecDepth 8000 in
theorem record_interval_witness :
    messageKey exampleParseFloatOK exampleBid.topic exampleBid.value = some exampleKey ∧
    exampleKey.IntervalStr = "5m" ∧
    ∃ c r t tsMs tm,
      decodeEvent exampleParseFloatOK exampleBid.topic exampleBid.value = some (c, r, t) ∧
      intervalTimestamp t intervalSecs = some (exampleKey.IntervalTs, tsMs, tm) :=
  ⟨by decide,
    (record_interval_is_interval_name exampleParseFloatOK exampleDb exampleClock [] exampleStores).2
      exampleBid.topic exampleBid.value exampleKey (by decide)⟩

set_option maxRecDepth 8000 in
/-- C5 fails as stated: the bid of `exampleBid` is counted under the window label
"2001-09-09T01:45:00Z", and the record flushed for it has the `interval` field "5m". -/
theorem record_interval_is_not_window_label :
    (intervalTimestamp 1000000000000 intervalSecs).map (fun r => r.1) =
      some "2001-09-09T01:45:00Z" ∧
    (consumeMessages exampleParseFloatOK Stores.init [exampleBid]).map
      (fun s => (drain exampleDb exampleClock s).1.map (fun r => r.Interval)) = some ["5m"] ∧
    (consumeMessages exampleParseFloatOK Stores.init [exampleBid]).map
      (fun s => (drain exampleDb exampleClock s).1.map
        (fun r => decide (r.Interval = "2001-09-09T01:45:00Z"))) = some [false] := by
  decide

/-- C6 (as amended). For every `int64` timestamp and every positive interval,
`intervalTimestamp` returns the label, the epoch milliseconds and the time value of one
instant, `windowStartSec` seconds after the epoch, in which both divisions truncate
toward zero; for a timestamp that is not negative this is
`floor(eventEpochSec / intervalSeconds) * intervalSeconds * 1000` of the specification. -/
theorem intervalTimestamp_window_start (ms interval : Int) (hms : inInt64 ms)
    (hpos : 0 < interval) :
    intervalTimestamp ms interval =
      some ((Time.Unix (windowStartSec ms interval) 0).formatRFC3339,
        windowStartSec ms interval * 1000, Time.Unix (windowStartSec ms interval) 0) ∧
    (0 ≤ ms → windowStartSec ms interval * 1000 = specWindowStartMs ms interval) := by
  refine ⟨intervalTimestamp_eq ms interval hms hpos, ?_⟩
  intro h0
  unfold specWindowStartMs
  rw [← windowStartSec_floor ms interval h0 hpos]

set_option maxRecDepth 8000 in
theorem intervalTimestamp_window_start_witness :
    inInt64 1000000000000 ∧ (0 : Int) < 300 ∧
    intervalTimestamp 1000000000000 300 =
      some ((Time.Unix (windowStartSec 1000000000000 300) 0).formatRFC3339,
        windowStartSec 1000000000000 300 * 1000,
        Time.Unix (windowStartSec 1000000000000 300) 0) ∧
    ((0 : Int) ≤ 1000000000000 →
      windowStartSec 1000000000000 300 * 1000 = specWindowStartMs 1000000000000 300) :=
  ⟨by decide, by decide, intervalTimestamp_window_start 1000000000000 300 (by decide) (by decide)⟩

set_option maxRecDepth 8000 in
/-- C6 fails as stated: one second before the epoch with an interval of 300 seconds, the
code returns the window start 0, and the floor formula gives -300000. -/
theorem intervalTimestamp_negative_not_floor :
    intervalTimestamp (-1000) 300 = some ("1970-01-01T00:00:00Z", 0, Time.Unix 0 0) ∧
    specWindowStartMs (-1000) 300 = -300000 := by
  constructor
  · decide
  · unfold specWindowStartMs
    have e1 : ⌊((-1000 : Int) : ℚ) / 1000⌋ = -1 := by
      rw [Int.floor_eq_iff]
      norm_num
    rw [e1]
    have e2 : ⌊((-1 : Int) : ℚ) / ((300 : Int) : ℚ)⌋ = -1 := by
      rw [Int.floor_eq_iff]
      norm_num
    rw [e2]
    norm_num

/-- C7. Bucketing with the interval of 300 seconds is idempotent: for every `int64`
timestamp `intervalTimestamp` returns a triple, and `intervalTimestamp` of the returned
epoch milliseconds returns the same triple. -/
theorem intervalTimestamp_idempotent (ms : Int) (hms : inInt64 ms) :
    ∃ label start tm, intervalTimestamp ms 300 = some (label, start, tm) ∧
      intervalTimestamp start 300 = some (label, start, tm) := by
  have h1 := intervalTimestamp_eq ms 300 hms (by norm_num)
  have hb := (windowStartSec_bounds ms 300 hms (by norm_num)).2.2.2
  have h2 := intervalTimestamp_eq (windowStartSec ms 300 * 1000) 300 hb (by norm_num)
  rw [windowStartSec_idem] at h2
  exact ⟨_, _, _, h1, h2⟩

set_option maxRecDepth 8000 in
theorem intervalTimestamp_idempotent_witness :
    inInt64 1577836050000 ∧
    ∃ label start tm, intervalTimestamp 1577836050000 300 = some (label, start, tm) ∧
      intervalTimestamp start 300 = some (label, start, tm) :=
  ⟨by decide, intervalTimestamp_idempotent 1577836050000 (by decide)⟩

set_option maxRecDepth 8000 in
/-- C8 (as amended). For the event timestamp 1577836050000, which is 2019-12-31T23:47:30Z,
and the interval of 300 seconds `intervalTimestamp` returns the window start
2019-12-31T23:45:00Z (epoch ms 1577835900000) and the label "2019-12-31T23:45:00Z"; the
instant 2020-01-01T00:07:30Z is epoch ms 1577837250000, for which it returns the window
start 2020-01-01T00:05:00Z and the label "2020-01-01T00:05:00Z". -/
theorem intervalTimestamp_example :
    (Time.Unix 1577836050 0).formatRFC3339 = "2019-12-31T23:47:30Z" ∧
    intervalTimestamp 1577836050000 300 =
      some ("2019-12-31T23:45:00Z", 1577835900000, Time.Unix 1577835900 0) ∧
    (Time.Unix 1577837250 0).formatRFC3339 = "2020-01-01T00:07:30Z" ∧
    intervalTimestamp 1577837250000 300 =
      some ("2020-01-01T00:05:00Z", 1577837100000, Time.Unix 1577837100 0) := by
  decide

set_option maxRecDepth 8000 in
/-- C8 fails as stated: for 1577836050000 and 300 seconds the label returned is not
"2020-01-01T00:05:00Z" and the window start is not 2020-01-01T00:05:00Z. -/
theorem intervalTimestamp_example_not_2020 :
    (intervalTimestamp 1577836050000 300).map (fun r => r.1) ≠ some "2020-01-01T00:05:00Z" ∧
    (intervalTimestamp 1577836050000 300).map (fun r => r.2.2.formatRFC3339) ≠
      some "2020-01-01T00:05:00Z" := by
  decide

/-! ## Identifier fields of the four message formats -/

theorem bid_setMember_ids (pf : String → Bool) (f : BidFields) (n r : Int)
    (hn : inInt64 n) (hr : inInt64 r) :
    [("adid", JValue.string (decimal n)), ("crid", JValue.string (decimal r))].foldlM
        (BidFields.setMember pf) f = some { f with CampaignID := n, CreativeID := r } := by
  have e1 : foldEq "adid" "adid" = true := by decide
  have e2 : foldEq "adid" "crid" = false := by decide
  have e3 : foldEq "crid" "crid" = true := by decide
  simp [List.foldlM, BidFields.setMember, e1, e2, e3, storeQuotedInt64_decimal _ _ hn,
    storeQuotedInt64_decimal _ _ hr]

theorem win_setMember_ids (pf : String → Bool) (f : WinFields) (n r : Int)
    (hn : inInt64 n) (hr : inInt64 r) :
    [("adId", JValue.string (decimal n)), ("cridId", JValue.string (decimal r))].foldlM
        (WinFields.setMember pf) f = some { f with CampaignID := n, CreativeID := r } := by
  have e1 : foldEq "adId" "adId" = true := by decide
  have e2 : foldEq "adId" "cridId" = false := by decide
  have e3 : foldEq "cridId" "cridId" = true := by decide
  simp [List.foldlM, WinFields.setMember, e1, e2, e3, storeQuotedInt64_decimal _ _ hn,
    storeQuotedInt64_decimal _ _ hr]

theorem pixel_setMember_ids (f : PixelFields) (n r : Int)
    (hn : inInt64 n) (hr : inInt64 r) :
    [("ad_id", JValue.string (decimal n)), ("creative_id", JValue.string (decimal r))].foldlM
        PixelFields.setMember f = some { f with CampaignID := n, CreativeID := r } := by
  have e1 : foldEq "ad_id" "ad_id" = true := by decide
  have e2 : foldEq "ad_id" "creative_id" = false := by decide
  have e3 : foldEq "creative_id" "creative_id" = true := by decide
  simp [List.foldlM, PixelFields.setMember, e1, e2, e3, storeQuotedInt64_decimal _ _ hn,
    storeQuotedInt64_decimal _ _ hr]

theorem click_setMember_ids (f : ClickFields) (n r : Int)
    (hn : inInt64 n) (hr : inInt64 r) :
    [("ad_id", JValue.string (decimal n)), ("creative_id", JValue.string (decimal r))].foldlM
        ClickFields.setMember f = some { f with CampaignID := n, CreativeID := r } := by
  have e1 : foldEq "ad_id" "ad_id" = true := by decide
  have e2 : foldEq "ad_id" "creative_id" = false := by decide
  have e3 : foldEq "creative_id" "creative_id" = true := by decide
  simp [List.foldlM, ClickFields.setMember, e1, e2, e3, storeQuotedInt64_decimal _ _ hn,
    storeQuotedInt64_decimal _ _ hr]

theorem decodeEvent_bid (pf : String → Bool) (msg : Payload) :
    decodeEvent pf Category.bid.topic msg =
      (unmarshal BidFields.zero (BidFields.setMember pf) msg).map
        (fun f => (f.CampaignID, f.CreativeID, f.Timestamp)) := by
  unfold decodeEvent Category.topic
  rw [if_pos rfl]

theorem decodeEvent_win (pf : String → Bool) (msg : Payload) :
    decodeEvent pf Category.win.topic msg =
      (unmarshal WinFields.zero (WinFields.setMember pf) msg).map
        (fun f => (f.CampaignID, f.CreativeID, f.Timestamp)) := by
  unfold decodeEvent Category.topic
  rw [if_neg (by decide), if_pos rfl]

theorem decodeEvent_pixel (pf : String → Bool) (msg : Payload) :
    decodeEvent pf Category.pixel.topic msg =
      (unmarshal PixelFields.zero PixelFields.setMember msg).map
        (fun f => (f.CampaignID, f.CreativeID, f.Timestamp)) := by
  unfold decodeEvent Category.topic
  rw [if_neg (by decide), if_neg (by decide), if_pos rfl]

theorem decodeEvent_click (pf : String → Bool) (msg : Payload) :
    decodeEvent pf Category.click.topic msg =
      (unmarshal ClickFields.zero ClickFields.setMember msg).map
        (fun f => (f.CampaignID, f.CreativeID, f.Timestamp)) := by
  unfold decodeEvent Category.topic
  rw [if_neg (by decide), if_neg (by decide), if_neg (by decide), if_pos rfl]

theorem unmarshal_object_append {α : Type} (zero : α)
    (setMember : α → String × JValue → Option α) (rest tail : List (String × JValue)) (f : α)
    (h : unmarshal zero setMember (.object rest) = some f) :
    unmarshal zero setMember (.object (rest ++ tail)) = tail.foldlM setMember f := by
  simp only [unmarshal] at h ⊢
  rw [List.foldlM_append, h]
  rfl

theorem unmarshal_numeric_member {α : Type} (zero : α)
    (setMember : α → String × JValue → Option α) (members : List (String × JValue))
    (b : String × JValue) (hb : ∀ a, setMember a b = none) (h : b ∈ members) :
    unmarshal zero setMember (.object members) = none := by
  simp only [unmarshal]
  exact foldlM_none_of_mem setMember b hb members zero h

/-- Decoding an object that ends with the two identifiers as JSON strings. -/
theorem decodeEvent_append_ids (pf : String → Bool) (c : Category)
    (rest : List (String × JValue)) (n r : Int) (hn : inInt64 n) (hr : inInt64 r)
    (e : Int × Int × Int) (hrest : decodeEvent pf c.topic (.object rest) = some e) :
    decodeEvent pf c.topic (.object (rest ++
      [(c.campaignField, JValue.string (decimal n)),
        (c.creativeField, JValue.string (decimal r))])) = some (n, r, e.2.2) := by
  cases c
  · rw [decodeEvent_bid] at hrest ⊢
    cases hf : unmarshal BidFields.zero (BidFields.setMember pf) (.object rest) with
    | none => rw [hf] at hrest; simp at hrest
    | some f =>
      rw [hf] at hrest
      simp only [Option.map_some', Option.some.injEq] at hrest
      subst hrest
      rw [unmarshal_object_append _ _ _ _ f hf]
      simp only [Category.campaignField, Category.creativeField,
        bid_setMember_ids pf f n r hn hr, Option.map_some']
  · rw [decodeEvent_win] at hrest ⊢
    cases hf : unmarshal WinFields.zero (WinFields.setMember pf) (.object rest) with
    | none => rw [hf] at hrest; simp at hrest
    | some f =>
      rw [hf] at hrest
      simp only [Option.map_some', Option.some.injEq] at hrest
      subst hrest
      rw [unmarshal_object_append _ _ _ _ f hf]
      simp only [Category.campaignField, Category.creativeField,
        win_setMember_ids pf f n r hn hr, Option.map_some']
  · rw [decodeEvent_pixel] at hrest ⊢
    cases hf : unmarshal PixelFields.zero PixelFields.setMember (.object rest) with
    | none => rw [hf] at hrest; simp at hrest
    | some f =>
      rw [hf] at hrest
      simp only [Option.map_some', Option.some.injEq] at hrest
      subst hrest
      rw [unmarshal_object_append _ _ _ _ f hf]
      simp only [Category.campaignField, Category.creativeField,
        pixel_setMember_ids f n r hn hr, Option.map_some']
  · rw [decodeEvent_click] at hrest ⊢
    cases hf : unmarshal ClickFields.zero ClickFields.setMember (.object rest) with
    | none => rw [hf] at hrest; simp at hrest
    | some f =>
      rw [hf] at hrest
      simp only [Option.map_some', Option.some.injEq] at hrest
      subst hrest
      rw [unmarshal_object_append _ _ _ _ f hf]
      simp only [Category.campaignField, Category.creativeField,
        click_setMember_ids f n r hn hr, Option.map_some']

/-- An object in which an identifier is an unquoted JSON number fails to decode. -/
theorem decodeEvent_numeric_id (pf : String → Bool) (c : Category)
    (members : List (String × JValue)) (literal : String)
    (h : (c.campaignField, JValue.number literal) ∈ members ∨
      (c.creativeField, JValue.number literal) ∈ members) :
    decodeEvent pf c.topic (.object members) = none := by
  have a1 : foldEq "adid" "adid" = true := by decide
  have a2 : foldEq "adid" "crid" = false := by decide
  have a3 : foldEq "crid" "crid" = true := by decide
  have b1 : foldEq "adId" "adId" = true := by decide
  have b2 : foldEq "adId" "cridId" = false := by decide
  have b3 : foldEq "cridId" "cridId" = true := by decide
  have c1 : foldEq "ad_id" "ad_id" = true := by decide
  have c2 : foldEq "ad_id" "creative_id" = false := by decide
  have c3 : foldEq "creative_id" "creative_id" = true := by decide
  cases c
  · rw [decodeEvent_bid]
    simp only [Category.campaignField, Category.creativeField] at h
    rcases h with h | h
    · rw [unmarshal_numeric_member _ _ members _
        (fun f => by simp [BidFields.setMember, a1, storeQuotedInt64]) h]
      rfl
    · rw [unmarshal_numeric_member _ _ members _
        (fun f => by simp [BidFields.setMember, a2, a3, storeQuotedInt64]) h]
      rfl
  · rw [decodeEvent_win]
    simp only [Category.campaignField, Category.creativeField] at h
    rcases h with h | h
    · rw [unmarshal_numeric_member _ _ members _
        (fun f => by simp [WinFields.setMember, b1, storeQuotedInt64]) h]
      rfl
    · rw [unmarshal_numeric_member _ _ members _
        (fun f => by simp [WinFields.setMember, b2, b3, storeQuotedInt64]) h]
      rfl
  · rw [decodeEvent_pixel]
    simp only [Category.campaignField, Category.creativeField] at h
    rcases h with h | h
    · rw [unmarshal_numeric_member _ _ members _
        (fun f => by simp [PixelFields.setMember, c1, storeQuotedInt64]) h]
      rfl
    · rw [unmarshal_numeric_member _ _ members _
        (fun f => by simp [PixelFields.setMember, c2, c3, storeQuotedInt64]) h]
      rfl
  · rw [decodeEvent_click]
    simp only [Category.campaignField, Category.creativeField] at h
    rcases h with h | h
    · rw [unmarshal_numeric_member _ _ members _
        (fun f => by simp [ClickFields.setMember, c1, storeQuotedInt64]) h]
      rfl
    · rw [unmarshal_numeric_member _ _ members _
        (fun f => by simp [ClickFields.setMember, c2, c3, storeQuotedInt64]) h]
      rfl

/-! ## Identifier members anywhere in the object -/

theorem foldlM_update_comm {α β : Type} (sm : α → β → Option α) (u : α → α) (l : List β)
    (h : ∀ m ∈ l, ∀ f, sm (u f) m = (sm f m).map u) :
    ∀ f, l.foldlM sm (u f) = (l.foldlM sm f).map u := by
  induction l with
  | nil => intro f; rfl
  | cons m rest ih =>
    intro f
    rw [List.foldlM_cons, List.foldlM_cons, h m (List.mem_cons_self _ _) f]
    cases hs : sm f m with
    | none => rfl
    | some f1 =>
      simp only [Option.map_some', Option.bind_eq_bind, Option.some_bind]
      exact ih (fun x hx => h x (List.mem_cons_of_mem _ hx)) f1

/-- Two members `x` and `y` that overwrite one field each, put anywhere into an object:
when no later member touches the field of `x` or of `y`, the object decodes as the object
without them does, with the two fields overwritten. -/
theorem foldlM_insert_two {α β : Type} (sm : α → β → Option α) (x y : β) (u1 u2 : α → α)
    (a b d : List β) (hx : ∀ f, sm f x = some (u1 f)) (hy : ∀ f, sm f y = some (u2 f))
    (hb : ∀ m ∈ b ++ d, ∀ f, sm (u1 f) m = (sm f m).map u1)
    (hd : ∀ m ∈ d, ∀ f, sm (u2 f) m = (sm f m).map u2) (z : α) :
    (a ++ x :: (b ++ y :: d)).foldlM sm z =
      ((a ++ (b ++ d)).foldlM sm z).map (fun f => u2 (u1 f)) := by
  rw [List.foldlM_append, List.foldlM_append]
  cases ha : a.foldlM sm z with
  | none => rfl
  | some fa =>
    simp only [Option.bind_eq_bind, Option.some_bind]
    rw [List.foldlM_cons, hx fa]
    simp only [Option.bind_eq_bind, Option.some_bind]
    rw [List.foldlM_append, List.foldlM_append,
      foldlM_update_comm sm u1 b (fun m hm => hb m (List.mem_append_left _ hm)) fa]
    cases hfb : b.foldlM sm fa with
    | none => rfl
    | some fb =>
      simp only [Option.map_some', Option.bind_eq_bind, Option.some_bind]
      rw [List.foldlM_cons, hy (u1 fb)]
      simp only [Option.bind_eq_bind, Option.some_bind]
      rw [foldlM_update_comm sm u2 d hd (u1 fb),
        foldlM_update_comm sm u1 d (fun m hm => hb m (List.mem_append_right _ hm)) fb,
        Option.map_map]
      rfl

theorem bid_campaign_comm (pf : String → Bool) (v : Int) (m : String × JValue)
    (h : foldEq "adid" m.1 = false) (f : BidFields) :
    BidFields.setMember pf { f with CampaignID := v } m =
      (BidFields.setMember pf f m).map (fun g => { g with CampaignID := v }) := by
  simp only [BidFields.setMember, h, Bool.false_eq_true, if_false]
  split_ifs <;> first | rfl | (rw [Option.map_map]; rfl)

theorem bid_creative_comm (pf : String → Bool) (v : Int) (m : String × JValue)
    (h : foldEq "crid" m.1 = false) (f : BidFields) :
    BidFields.setMember pf { f with CreativeID := v } m =
      (BidFields.setMember pf f m).map (fun g => { g with CreativeID := v }) := by
  simp only [BidFields.setMember, h, Bool.false_eq_true, if_false]
  split_ifs <;> first | rfl | (rw [Option.map_map]; rfl)

theorem win_campaign_comm (pf : String → Bool) (v : Int) (m : String × JValue)
    (h : foldEq "adId" m.1 = false) (f : WinFields) :
    WinFields.setMember pf { f with CampaignID := v } m =
      (WinFields.setMember pf f m).map (fun g => { g with CampaignID := v }) := by
  simp only [WinFields.setMember, h, Bool.false_eq_true, if_false]
  split_ifs <;> first | rfl | (rw [Option.map_map]; rfl)

theorem win_creative_comm (pf : String → Bool) (v : Int) (m : String × JValue)
    (h : foldEq "cridId" m.1 = false) (f : WinFields) :
    WinFields.setMember pf { f with CreativeID := v } m =
      (WinFields.setMember pf f m).map (fun g => { g with CreativeID := v }) := by
  simp only [WinFields.setMember, h, Bool.false_eq_true, if_false]
  split_ifs <;> first | rfl | (rw [Option.map_map]; rfl)

theorem pixel_campaign_comm (v : Int) (m : String × JValue)
    (h : foldEq "ad_id" m.1 = false) (f : PixelFields) :
    PixelFields.setMember { f with CampaignID := v } m =
      (PixelFields.setMember f m).map (fun g => { g with CampaignID := v }) := by
  simp only [PixelFields.setMember, h, Bool.false_eq_true, if_false]
  split_ifs <;> first | rfl | (rw [Option.map_map]; rfl)

theorem pixel_creative_comm (v : Int) (m : String × JValue)
    (h : foldEq "creative_id" m.1 = false) (f : PixelFields) :
    PixelFields.setMember { f with CreativeID := v } m =
      (PixelFields.setMember f m).map (fun g => { g with CreativeID := v }) := by
  simp only [PixelFields.setMember, h, Bool.false_eq_true, if_false]
  split_ifs <;> first | rfl | (rw [Option.map_map]; rfl)

theorem click_campaign_comm (v : Int) (m : String × JValue)
    (h : foldEq "ad_id" m.1 = false) (f : ClickFields) :
    ClickFields.setMember { f with CampaignID := v } m =
      (ClickFields.setMember f m).map (fun g => { g with CampaignID := v }) := by
  simp only [ClickFields.setMember, h, Bool.false_eq_true, if_false]
  split_ifs <;> first | rfl | (rw [Option.map_map]; rfl)

theorem click_creative_comm (v : Int) (m : String × JValue)
    (h : foldEq "creative_id" m.1 = false) (f : ClickFields) :
    ClickFields.setMember { f with CreativeID := v } m =
      (ClickFields.setMember f m).map (fun g => { g with CreativeID := v }) := by
  simp only [ClickFields.setMember, h, Bool.false_eq_true, if_false]
  split_ifs <;> first | rfl | (rw [Option.map_map]; rfl)

theorem bid_set_campaign (pf : String → Bool) (n : Int) (hn : inInt64 n) (f : BidFields) :
    BidFields.setMember pf f (campaignMember Category.bid n) =
      some { f with CampaignID := n } := by
  have e1 : foldEq "adid" "adid" = true := by decide
  simp [campaignMember, Category.campaignField, BidFields.setMember, e1,
    storeQuotedInt64_decimal _ _ hn]

theorem bid_set_creative (pf : String → Bool) (r : Int) (hr : inInt64 r) (f : BidFields) :
    BidFields.setMember pf f (creativeMember Category.bid r) =
      some { f with CreativeID := r } := by
  have e2 : foldEq "adid" "crid" = false := by decide
  have e3 : foldEq "crid" "crid" = true := by decide
  simp [creativeMember, Category.creativeField, BidFields.setMember, e2, e3,
    storeQuotedInt64_decimal _ _ hr]

theorem win_set_campaign (pf : String → Bool) (n : Int) (hn : inInt64 n) (f : WinFields) :
    WinFields.setMember pf f (campaignMember Category.win n) =
      some { f with CampaignID := n } := by
  have e1 : foldEq "adId" "adId" = true := by decide
  simp [campaignMember, Category.campaignField, WinFields.setMember, e1,
    storeQuotedInt64_decimal _ _ hn]

theorem win_set_creative (pf : String → Bool) (r : Int) (hr : inInt64 r) (f : WinFields) :
    WinFields.setMember pf f (creativeMember Category.win r) =
      some { f with CreativeID := r } := by
  have e2 : foldEq "adId" "cridId" = false := by decide
  have e3 : foldEq "cridId" "cridId" = true := by decide
  simp [creativeMember, Category.creativeField, WinFields.setMember, e2, e3,
    storeQuotedInt64_decimal _ _ hr]

theorem pixel_set_campaign (n : Int) (hn : inInt64 n) (f : PixelFields) :
    PixelFields.setMember f (campaignMember Category.pixel n) =
      some { f with CampaignID := n } := by
  have e1 : foldEq "ad_id" "ad_id" = true := by decide
  simp [campaignMember, Category.campaignField, PixelFields.setMember, e1,
    storeQuotedInt64_decimal _ _ hn]

theorem pixel_set_creative (r : Int) (hr : inInt64 r) (f : PixelFields) :
    PixelFields.setMember f (creativeMember Category.pixel r) =
      some { f with CreativeID := r } := by
  have e2 : foldEq "ad_id" "creative_id" = false := by decide
  have e3 : foldEq "creative_id" "creative_id" = true := by decide
  simp [creativeMember, Category.creativeField, PixelFields.setMember, e2, e3,
    storeQuotedInt64_decimal _ _ hr]

theorem click_set_campaign (n : Int) (hn : inInt64 n) (f : ClickFields) :
    ClickFields.setMember f (campaignMember Category.click n) =
      some { f with CampaignID := n } := by
  have e1 : foldEq "ad_id" "ad_id" = true := by decide
  simp [campaignMember, Category.campaignField, ClickFields.setMember, e1,
    storeQuotedInt64_decimal _ _ hn]

theorem click_set_creative (r : Int) (hr : inInt64 r) (f : ClickFields) :
    ClickFields.setMember f (creativeMember Category.click r) =
      some { f with CreativeID := r } := by
  have e2 : foldEq "ad_id" "creative_id" = false := by decide
  have e3 : foldEq "creative_id" "creative_id" = true := by decide
  simp [creativeMember, Category.creativeField, ClickFields.setMember, e2, e3,
    storeQuotedInt64_decimal _ _ hr]

/-- The campaign identifier before the creative identifier, each anywhere in the object. -/
theorem decodeEvent_campaign_then_creative (pf : String → Bool) (c : Category)
    (a b d : List (String × JValue)) (n r : Int) (hn : inInt64 n) (hr : inInt64 r)
    (e : Int × Int × Int)
    (hrest : decodeEvent pf c.topic (.object (a ++ (b ++ d))) = some e)
    (hb : ∀ m ∈ b ++ d, foldEq c.campaignField m.1 = false)
    (hd : ∀ m ∈ d, foldEq c.creativeField m.1 = false) :
    decodeEvent pf c.topic
      (.object (a ++ campaignMember c n :: (b ++ creativeMember c r :: d))) =
      some (n, r, e.2.2) := by
  cases c
  · rw [decodeEvent_bid] at hrest ⊢
    simp only [unmarshal] at hrest ⊢
    rw [foldlM_insert_two (BidFields.setMember pf) _ _ (fun f => { f with CampaignID := n })
      (fun f => { f with CreativeID := r }) a b d (bid_set_campaign pf n hn)
      (bid_set_creative pf r hr) (fun m hm f => bid_campaign_comm pf n m (hb m hm) f)
      (fun m hm f => bid_creative_comm pf r m (hd m hm) f)]
    cases hf : List.foldlM (BidFields.setMember pf) BidFields.zero (a ++ (b ++ d)) with
    | none => rw [hf] at hrest; simp at hrest
    | some f =>
      rw [hf] at hrest
      simp only [Option.map_some', Option.some.injEq] at hrest
      subst hrest
      rfl
  · rw [decodeEvent_win] at hrest ⊢
    simp only [unmarshal] at hrest ⊢
    rw [foldlM_insert_two (WinFields.setMember pf) _ _ (fun f => { f with CampaignID := n })
      (fun f => { f with CreativeID := r }) a b d (win_set_campaign pf n hn)
      (win_set_creative pf r hr) (fun m hm f => win_campaign_comm pf n m (hb m hm) f)
      (fun m hm f => win_creative_comm pf r m (hd m hm) f)]
    cases hf : List.foldlM (WinFields.setMember pf) WinFields.zero (a ++ (b ++ d)) with
    | none => rw [hf] at hrest; simp at hrest
    | some f =>
      rw [hf] at hrest
      simp only [Option.map_some', Option.some.injEq] at hrest
      subst hrest
      rfl
  · rw [decodeEvent_pixel] at hrest ⊢
    simp only [unmarshal] at hrest ⊢
    rw [foldlM_insert_two PixelFields.setMember _ _ (fun f => { f with CampaignID := n })
      (fun f => { f with CreativeID := r }) a b d (pixel_set_campaign n hn)
      (pixel_set_creative r hr) (fun m hm f => pixel_campaign_comm n m (hb m hm) f)
      (fun m hm f => pixel_creative_comm r m (hd m hm) f)]
    cases hf : List.foldlM PixelFields.setMember PixelFields.zero (a ++ (b ++ d)) with
    | none => rw [hf] at hrest; simp at hrest
    | some f =>
      rw [hf] at hrest
      simp only [Option.map_some', Option.some.injEq] at hrest
      subst hrest
      rfl
  · rw [decodeEvent_click] at hrest ⊢
    simp only [unmarshal] at hrest ⊢
    rw [foldlM_insert_two ClickFields.setMember _ _ (fun f => { f with CampaignID := n })
      (fun f => { f with CreativeID := r }) a b d (click_set_campaign n hn)
      (click_set_creative r hr) (fun m hm f => click_campaign_comm n m (hb m hm) f)
      (fun m hm f => click_creative_comm r m (hd m hm) f)]
    cases hf : List.foldlM ClickFields.setMember ClickFields.zero (a ++ (b ++ d)) with
    | none => rw [hf] at hrest; simp at hrest
    | some f =>
      rw [hf] at hrest
      simp only [Option.map_some', Option.some.injEq] at hrest
      subst hrest
      rfl

/-- The creative identifier before the campaign identifier, each anywhere in the object. -/
theorem decodeEvent_creative_then_campaign (pf : String → Bool) (c : Category)
    (a b d : List (String × JValue)) (n r : Int) (hn : inInt64 n) (hr : inInt64 r)
    (e : Int × Int × Int)
    (hrest : decodeEvent pf c.topic (.object (a ++ (b ++ d))) = some e)
    (hb : ∀ m ∈ b ++ d, foldEq c.creativeField m.1 = false)
    (hd : ∀ m ∈ d, foldEq c.campaignField m.1 = false) :
    decodeEvent pf c.topic
      (.object (a ++ creativeMember c r :: (b ++ campaignMember c n :: d))) =
      some (n, r, e.2.2) := by
  cases c
  · rw [decodeEvent_bid] at hrest ⊢
    simp only [unmarshal] at hrest ⊢
    rw [foldlM_insert_two (BidFields.setMember pf) _ _ (fun f => { f with CreativeID := r })
      (fun f => { f with CampaignID := n }) a b d (bid_set_creative pf r hr)
      (bid_set_campaign pf n hn) (fun m hm f => bid_creative_comm pf r m (hb m hm) f)
      (fun m hm f => bid_campaign_comm pf n m (hd m hm) f)]
    cases hf : List.foldlM (BidFields.setMember pf) BidFields.zero (a ++ (b ++ d)) with
    | none => rw [hf] at hrest; simp at hrest
    | some f =>
      rw [hf] at hrest
      simp only [Option.map_some', Option.some.injEq] at hrest
      subst hrest
      rfl
  · rw [decodeEvent_win] at hrest ⊢
    simp only [unmarshal] at hrest ⊢
    rw [foldlM_insert_two (WinFields.setMember pf) _ _ (fun f => { f with CreativeID := r })
      (fun f => { f with CampaignID := n }) a b d (win_set_creative pf r hr)
      (win_set_campaign pf n hn) (fun m hm f => win_creative_comm pf r m (hb m hm) f)
      (fun m hm f => win_campaign_comm pf n m (hd m hm) f)]
    cases hf : List.foldlM (WinFields.setMember pf) WinFields.zero (a ++ (b ++ d)) with
    | none => rw [hf] at hrest; simp at hrest
    | some f =>
      rw [hf] at hrest
      simp only [Option.map_some', Option.some.injEq] at hrest
      subst hrest
      rfl
  · rw [decodeEvent_pixel] at hrest ⊢
    simp only [unmarshal] at hrest ⊢
    rw [foldlM_insert_two PixelFields.setMember _ _ (fun f => { f with CreativeID := r })
      (fun f => { f with CampaignID := n }) a b d (pixel_set_creative r hr)
      (pixel_set_campaign n hn) (fun m hm f => pixel_creative_comm r m (hb m hm) f)
      (fun m hm f => pixel_campaign_comm n m (hd m hm) f)]
    cases hf : List.foldlM PixelFields.setMember PixelFields.zero (a ++ (b ++ d)) with
    | none => rw [hf] at hrest; simp at hrest
    | some f =>
      rw [hf] at hrest
      simp only [Option.map_some', Option.some.injEq] at hrest
      subst hrest
      rfl
  · rw [decodeEvent_click] at hrest ⊢
    simp only [unmarshal] at hrest ⊢
    rw [foldlM_insert_two ClickFields.setMember _ _ (fun f => { f with CreativeID := r })
      (fun f => { f with CampaignID := n }) a b d (click_set_creative r hr)
      (click_set_campaign n hn) (fun m hm f => click_creative_comm r m (hb m hm) f)
      (fun m hm f => click_campaign_comm n m (hd m hm) f)]
    cases hf : List.foldlM ClickFields.setMember ClickFields.zero (a ++ (b ++ d)) with
    | none => rw [hf] at hrest; simp at hrest
    | some f =>
      rw [hf] at hrest
      simp only [Option.map_some', Option.some.injEq] at hrest
      subst hrest
      rfl

/-- A message that decodes is counted under the key built from its identifiers. -/
theorem decoded_is_counted (pf : String → Bool) (topic : String) (msg : Payload)
    (n r t : Int) (hd : decodeEvent pf topic msg = some (n, r, t)) :
    ∃ k, messageKey pf topic msg = some k ∧ k.CampaignID = n ∧ k.CreativeID = r ∧
      ∀ agg : OutputCounts, ∃ agg1, addCount pf agg topic msg = some agg1 ∧
        (OutputCounts.get agg1 k).count = wrap64 ((agg.get k).count + 1) := by
  obtain ⟨⟨ts, tsMs, tm⟩, hi⟩ := intervalTimestamp_intervalSecs t
  have hkey : messageKey pf topic msg = some ⟨n, r, intervalStr, ts⟩ := by
    unfold messageKey
    rw [hd]
    simp only [hi]
  refine ⟨⟨n, r, intervalStr, ts⟩, hkey, rfl, rfl, ?_⟩
  intro agg
  obtain ⟨agg1, h1, h2⟩ := addCount_count pf agg topic msg
  refine ⟨agg1, h1, ?_⟩
  rw [h2, if_pos hkey]

/-- C10 (as amended). For each of the four topics and every message object that decodes
without the two identifier members, putting in the campaign and creative identifiers as
JSON strings of the decimal digits of `n` and `r`, in either order and anywhere in the
object, provided no later member names the same field, makes decoding succeed with the
identifiers `n` and `r` and the timestamp of the object, and `addCount` increments the
counter of the key built from them. When an identifier is written as an unquoted JSON
number, decoding fails and `addCount` leaves the counter map as it is. -/
theorem identifiers_decoded_from_json_strings_only (pf : String → Bool) (c : Category)
    (n r : Int) (hn : inInt64 n) (hr : inInt64 r) :
    (∀ (a b d : List (String × JValue)) (e : Int × Int × Int),
      decodeEvent pf c.topic (.object (a ++ (b ++ d))) = some e →
      (∀ m ∈ b ++ d, foldEq c.campaignField m.1 = false) →
      (∀ m ∈ d, foldEq c.creativeField m.1 = false) →
      decodeEvent pf c.topic
        (.object (a ++ campaignMember c n :: (b ++ creativeMember c r :: d))) =
        some (n, r, e.2.2) ∧
      ∃ k, messageKey pf c.topic
          (.object (a ++ campaignMember c n :: (b ++ creativeMember c r :: d))) = some k ∧
        k.CampaignID = n ∧ k.CreativeID = r ∧
        ∀ agg : OutputCounts, ∃ agg1,
          addCount pf agg c.topic
            (.object (a ++ campaignMember c n :: (b ++ creativeMember c r :: d))) =
            some agg1 ∧
          (OutputCounts.get agg1 k).count = wrap64 ((agg.get k).count + 1)) ∧
    (∀ (a b d : List (String × JValue)) (e : Int × Int × Int),
      decodeEvent pf c.topic (.object (a ++ (b ++ d))) = some e →
      (∀ m ∈ b ++ d, foldEq c.creativeField m.1 = false) →
      (∀ m ∈ d, foldEq c.campaignField m.1 = false) →
      decodeEvent pf c.topic
        (.object (a ++ creativeMember c r :: (b ++ campaignMember c n :: d))) =
        some (n, r, e.2.2) ∧
      ∃ k, messageKey pf c.topic
          (.object (a ++ creativeMember c r :: (b ++ campaignMember c n :: d))) = some k ∧
        k.CampaignID = n ∧ k.CreativeID = r ∧
        ∀ agg : OutputCounts, ∃ agg1,
          addCount pf agg c.topic
            (.object (a ++ creativeMember c r :: (b ++ campaignMember c n :: d))) =
            some agg1 ∧
          (OutputCounts.get agg1 k).count = wrap64 ((agg.get k).count + 1)) ∧
    (∀ (members : List (String × JValue)) (literal : String),
      ((c.campaignField, JValue.number literal) ∈ members ∨
        (c.creativeField, JValue.number literal) ∈ members) →
      decodeEvent pf c.topic (.object members) = none ∧
      ∀ agg : OutputCounts, addCount pf agg c.topic (.object members) = some agg) := by
  refine ⟨?_, ?_, ?_⟩
  · intro a b d e hrest hb hd
    have h := decodeEvent_campaign_then_creative pf c a b d n r hn hr e hrest hb hd
    exact ⟨h, decoded_is_counted pf c.topic _ n r e.2.2 h⟩
  · intro a b d e hrest hb hd
    have h := decodeEvent_creative_then_campaign pf c a b d n r hn hr e hrest hb hd
    exact ⟨h, decoded_is_counted pf c.topic _ n r e.2.2 h⟩
  · intro members literal h
    have hd := decodeEvent_numeric_id pf c members literal h
    refine ⟨hd, ?_⟩
    intro agg
    rw [addCount_eq_decodeEvent, hd]

set_option maxRecDepth 8000 in
theorem identifiers_decoded_witness :
    inInt64 10 ∧ inInt64 20 ∧
    decodeEvent exampleParseFloatOK Category.win.topic
      (.object ([] ++ ([] ++ [("timestamp", .number "1000000002000")]))) =
      some (0, 0, 1000000002000) ∧
    (∀ m ∈ ([] : List (String × JValue)) ++ [("timestamp", JValue.number "1000000002000")],
      foldEq Category.win.campaignField m.1 = false) ∧
    (∀ m ∈ [("timestamp", JValue.number "1000000002000")],
      foldEq Category.win.creativeField m.1 = false) ∧
    ([] ++ campaignMember Category.win 10 ::
      ([] ++ creativeMember Category.win 20 :: [("timestamp", .number "1000000002000")])) =
      [("adId", .string "10"), ("cridId", .string "20"),
        ("timestamp", .number "1000000002000")] ∧
    (decodeEvent exampleParseFloatOK Category.win.topic
        (.object ([] ++ campaignMember Category.win 10 ::
          ([] ++ creativeMember Category.win 20 ::
            [("timestamp", .number "1000000002000")]))) =
        some (10, 20, (0, 0, 1000000002000).2.2) ∧
      ∃ k, messageKey exampleParseFloatOK Category.win.topic
          (.object ([] ++ campaignMember Category.win 10 ::
            ([] ++ creativeMember Category.win 20 ::
              [("timestamp", .number "1000000002000")]))) = some k ∧
        k.CampaignID = 10 ∧ k.CreativeID = 20 ∧
        ∀ agg : OutputCounts, ∃ agg1,
          addCount exampleParseFloatOK agg Category.win.topic
            (.object ([] ++ campaignMember Category.win 10 ::
              ([] ++ creativeMember Category.win 20 ::
                [("timestamp", .number "1000000002000")]))) = some agg1 ∧
          (OutputCounts.get agg1 k).count = wrap64 ((agg.get k).count + 1)) ∧
    (decodeEvent exampleParseFloatOK Category.win.topic
        (.object ([] ++ creativeMember Category.win 20 ::
          ([("timestamp", .number "1000000002000")] ++
            campaignMember Category.win 10 :: []))) =
        some (10, 20, (0, 0, 1000000002000).2.2) ∧
      ∃ k, messageKey exampleParseFloatOK Category.win.topic
          (.object ([] ++ creativeMember Category.win 20 ::
            ([("timestamp", .number "1000000002000")] ++
              campaignMember Category.win 10 :: []))) = some k ∧
        k.CampaignID = 10 ∧ k.CreativeID = 20 ∧
        ∀ agg : OutputCounts, ∃ agg1,
          addCount exampleParseFloatOK agg Category.win.topic
            (.object ([] ++ creativeMember Category.win 20 ::
              ([("timestamp", .number "1000000002000")] ++
                campaignMember Category.win 10 :: []))) = some agg1 ∧
          (OutputCounts.get agg1 k).count = wrap64 ((agg.get k).count + 1)) :=
  ⟨by decide, by decide, by decide, by decide, by decide, by decide,
    (identifiers_decoded_from_json_strings_only exampleParseFloatOK Category.win 10 20
      (by decide) (by decide)).1 [] [] [("timestamp", .number "1000000002000")]
      (0, 0, 1000000002000) (by decide) (by decide) (by decide),
    (identifiers_decoded_from_json_strings_only exampleParseFloatOK Category.win 10 20
      (by decide) (by decide)).2.1 [] [("timestamp", .number "1000000002000")] []
      (0, 0, 1000000002000) (by decide) (by decide) (by decide)⟩

set_option maxRecDepth 8000 in
/-- C10 fails as stated: the bid with the campaign identifier written as the JSON number
10 fails to decode and `addCount` counts nothing, while the same bid with the identifier
written as the JSON string "10" decodes and is counted. -/
theorem numeric_identifier_rejected :
    decodeEvent exampleParseFloatOK "bids" exampleNumericBid.value = none ∧
    (addCount exampleParseFloatOK ∅ "bids" exampleNumericBid.value).map
      (fun agg => agg.keys) = some [] ∧
    decodeEvent exampleParseFloatOK "bids" exampleBid.value = some (10, 20, 1000000000000) ∧
    (addCount exampleParseFloatOK ∅ "bids" exampleBid.value).map
      (fun agg => (OutputCounts.get agg exampleKey).count) = some 1 := by
  decide

/-! ## Invariant of the reachable states -/

/-- What `addCount` does, with the origin of the values of a fresh entry: they are the
epoch milliseconds and time value returned with the label of the key. -/
theorem addCount_cases_window (pf : String → Bool) (agg : OutputCounts) (topic : String)
    (msg : Payload) :
    addCount pf agg topic msg = some agg ∨
    (∃ k tsMs tm t, intervalTimestamp t intervalSecs = some (k.IntervalTs, tsMs, tm) ∧
      addCount pf agg topic msg =
        some (AList.insert k
          ⟨wrap64 (((agg.lookup k).getD ⟨0, tsMs, tm⟩).count + 1),
            ((agg.lookup k).getD ⟨0, tsMs, tm⟩).intervalTs,
            ((agg.lookup k).getD ⟨0, tsMs, tm⟩).intervalTm⟩ agg)) := by
  rw [addCount_eq_decodeEvent]
  cases hd : decodeEvent pf topic msg with
  | none => left; rfl
  | some e =>
    obtain ⟨c, r, t⟩ := e
    right
    obtain ⟨ts, tsMs, tm, h1, h2⟩ := countEvent_eq agg c r t
    exact ⟨⟨c, r, intervalStr, ts⟩, tsMs, tm, t, h1, h2⟩

/-- One `addCount` keeps the invariant of a single map. -/
theorem addCount_entries (pf : String → Bool) (agg agg1 : OutputCounts) (topic : String)
    (msg : Payload) (n : Nat) (hn : n + 1 < 2 ^ 63)
    (h : addCount pf agg topic msg = some agg1)
    (hinv : ∀ (k : RecordKey) (f : CountFields), agg.lookup k = some f →
      1 ≤ f.count ∧ f.count ≤ n ∧
      ∃ t, intervalTimestamp t intervalSecs = some (k.IntervalTs, f.intervalTs, f.intervalTm)) :
    ∀ (k : RecordKey) (f : CountFields), agg1.lookup k = some f →
      1 ≤ f.count ∧ f.count ≤ (n + 1 : Nat) ∧
      ∃ t, intervalTimestamp t intervalSecs = some (k.IntervalTs, f.intervalTs, f.intervalTm) := by
  have hweak : ∀ (k : RecordKey) (f : CountFields), agg.lookup k = some f →
      1 ≤ f.count ∧ f.count ≤ (n + 1 : Nat) ∧
      ∃ t, intervalTimestamp t intervalSecs =
        some (k.IntervalTs, f.intervalTs, f.intervalTm) := by
    intro k f hf
    obtain ⟨a, b, c⟩ := hinv k f hf
    refine ⟨a, ?_, c⟩
    push_cast
    omega
  have hn2 : ((n : Int) + 1) < 2 ^ 63 := by exact_mod_cast hn
  rcases addCount_cases_window pf agg topic msg with h0 | ⟨k0, tsMs, tm, t, hw, h1⟩
  · rw [h0] at h
    cases h
    exact hweak
  · rw [h1] at h
    cases h
    intro k f hf
    by_cases hk : k = k0
    · subst hk
      rw [AList.lookup_insert] at hf
      cases hf
      cases hl : agg.lookup k with
      | none =>
        simp only [Option.getD_none]
        refine ⟨by decide, ?_, t, hw⟩
        have : wrap64 (0 + 1) = 1 := by decide
        rw [this]
        push_cast
        omega
      | some f0 =>
        simp only [Option.getD_some]
        obtain ⟨a, b, c⟩ := hinv k f0 hl
        have hwrap : wrap64 (f0.count + 1) = f0.count + 1 := by
          apply wrap64_of_inInt64
          unfold inInt64
          constructor <;> omega
        rw [hwrap]
        refine ⟨by omega, ?_, c⟩
        push_cast
        omega
    · rw [AList.lookup_insert_ne hk] at hf
      exact hweak k f hf

/-- Handling one message keeps the invariant of the stores. -/
theorem consumeMessages_single_inv (pf : String → Bool) (s s1 : Stores) (m : Message)
    (n : Nat) (hn : n + 1 < 2 ^ 63) (h : consumeMessages pf s [m] = some s1)
    (hinv : StoresInv n s) : StoresInv (n + 1) s1 := by
  have hweak : ∀ (c : Category) (k : RecordKey) (f : CountFields),
      (s.of c).lookup k = some f →
      1 ≤ f.count ∧ f.count ≤ (n + 1 : Nat) ∧
      ∃ t, intervalTimestamp t intervalSecs =
        some (k.IntervalTs, f.intervalTs, f.intervalTm) := by
    intro c k f hf
    obtain ⟨a, b, d⟩ := hinv c k f hf
    refine ⟨a, ?_, d⟩
    push_cast
    omega
  simp only [consumeMessages] at h
  by_cases h1 : m.topic = "bids"
  · rw [if_pos h1] at h
    cases ha : addCount pf s.aggBids m.topic m.value with
    | none => rw [ha] at h; simp at h
    | some a =>
      rw [ha] at h
      simp only [Option.some_bind, Option.some.injEq] at h
      subst h
      intro c k f hf
      cases c
      · exact addCount_entries pf s.aggBids a m.topic m.value n hn ha (hinv Category.bid) k f hf
      · exact hweak Category.win k f hf
      · exact hweak Category.pixel k f hf
      · exact hweak Category.click k f hf
  · rw [if_neg h1] at h
    by_cases h2 : m.topic = "wins"
    · rw [if_pos h2] at h
      cases ha : addCount pf s.aggWins m.topic m.value with
      | none => rw [ha] at h; simp at h
      | some a =>
        rw [ha] at h
        simp only [Option.some_bind, Option.some.injEq] at h
        subst h
        intro c k f hf
        cases c
        · exact hweak Category.bid k f hf
        · exact addCount_entries pf s.aggWins a m.topic m.value n hn ha (hinv Category.win) k f hf
        · exact hweak Category.pixel k f hf
        · exact hweak Category.click k f hf
    · rw [if_neg h2] at h
      by_cases h3 : m.topic = "pixels"
      · rw [if_pos h3] at h
        cases ha : addCount pf s.aggPixels m.topic m.value with
        | none => rw [ha] at h; simp at h
        | some a =>
          rw [ha] at h
          simp only [Option.some_bind, Option.some.injEq] at h
          subst h
          intro c k f hf
          cases c
          · exact hweak Category.bid k f hf
          · exact hweak Category.win k f hf
          · exact addCount_entries pf s.aggPixels a m.topic m.value n hn ha
              (hinv Category.pixel) k f hf
          · exact hweak Category.click k f hf
      · rw [if_neg h3] at h
        by_cases h4 : m.topic = "clicks"
        · rw [if_pos h4] at h
          cases ha : addCount pf s.aggClicks m.topic m.value with
          | none => rw [ha] at h; simp at h
          | some a =>
            rw [ha] at h
            simp only [Option.some_bind, Option.some.injEq] at h
            subst h
            intro c k f hf
            cases c
            · exact hweak Category.bid k f hf
            · exact hweak Category.win k f hf
            · exact hweak Category.pixel k f hf
            · exact addCount_entries pf s.aggClicks a m.topic m.value n hn ha
                (hinv Category.click) k f hf
        · rw [if_neg h4] at h
          cases h
          exact hweak

/-- A flush pass keeps the invariant of the stores. -/
theorem writeAggregatedRecords_inv (db : RefData) (clock : RecordKey → Time × Time)
    (order : List RecordKey) (s : Stores) (n : Nat) (hinv : StoresInv n s) :
    StoresInv n (writeAggregatedRecords db clock order s).2 := by
  intro c k f hf
  rw [writeAggregatedRecords_lookup] at hf
  by_cases hk : k ∈ order
  · rw [if_pos hk] at hf
    cases hf
  · rw [if_neg hk] at hf
    exact hinv c k f hf

/-- Every reachable state with fewer than 2^63 messages handled has the invariant. -/
theorem reachable_inv (pf : String → Bool) (db : RefData) (clock : RecordKey → Time × Time)
    (n : Nat) (s : Stores) (hr : Reachable pf db clock n s) :
    n < 2 ^ 63 → StoresInv n s := by
  induction hr with
  | start =>
    intro _ c k f hf
    cases c <;> simp [Stores.of, Stores.init] at hf
  | message n s s1 m _ hstep ih =>
    intro hn
    exact consumeMessages_single_inv pf s s1 m n hn hstep (ih (by omega))
  | tick n s nowUnix allkeys order _ _ _ ih =>
    intro hn
    exact writeAggregatedRecords_inv db clock order s n (ih hn)
  | shutdown n s order _ _ ih =>
    intro hn
    exact writeAggregatedRecords_inv db clock order s n (ih hn)

/-! ## Selected keys are present -/

theorem lastIntervalKeys_spec (nowUnix : Int) (s : Stores) (allkeys : List RecordKey)
    (h : lastIntervalKeys nowUnix s = some allkeys) :
    allkeys.Nodup ∧ ∀ k ∈ allkeys, ∃ c f, (s.of c).lookup k = some f := by
  unfold lastIntervalKeys at h
  obtain ⟨⟨label, tsMs0, tm⟩, hi⟩ := intervalTimestamp_intervalSecs (wrap64 (nowUnix * 1000))
  rw [hi] at h
  simp only [Option.some.injEq] at h
  subst h
  constructor
  · exact setMapKeys_nodup _ _ _ _ (setMapKeys_nodup _ _ _ _ (setMapKeys_nodup _ _ _ _
      (setMapKeys_nodup _ _ _ _ List.nodup_nil)))
  · intro k hk
    simp only [setMapKeys_mem, List.not_mem_nil, false_or] at hk
    rcases hk with ((⟨f, h1, _⟩ | ⟨f, h1, _⟩) | ⟨f, h1, _⟩) | ⟨f, h1, _⟩
    · exact ⟨Category.bid, f, h1⟩
    · exact ⟨Category.win, f, h1⟩
    · exact ⟨Category.pixel, f, h1⟩
    · exact ⟨Category.click, f, h1⟩

theorem drainKeys_spec (s : Stores) :
    (drainKeys s).Nodup ∧ ∀ k ∈ drainKeys s, ∃ c f, (s.of c).lookup k = some f := by
  unfold drainKeys
  constructor
  · exact setMapKeys_nodup _ _ _ _ (setMapKeys_nodup _ _ _ _ (setMapKeys_nodup _ _ _ _
      (setMapKeys_nodup _ _ _ _ List.nodup_nil)))
  · intro k hk
    simp only [setMapKeys_mem, List.not_mem_nil, false_or] at hk
    rcases hk with ((⟨f, h1, _⟩ | ⟨f, h1, _⟩) | ⟨f, h1, _⟩) | ⟨f, h1, _⟩
    · exact ⟨Category.bid, f, h1⟩
    · exact ⟨Category.win, f, h1⟩
    · exact ⟨Category.pixel, f, h1⟩
    · exact ⟨Category.click, f, h1⟩

theorem lookup_of_count_pos (agg : OutputCounts) (k : RecordKey)
    (h : (OutputCounts.get agg k).count > 0) :
    ∃ f, agg.lookup k = some f ∧ OutputCounts.get agg k = f := by
  unfold OutputCounts.get at h ⊢
  cases hl : agg.lookup k with
  | none =>
    rw [hl] at h
    simp [CountFields.zero] at h
  | some f => exact ⟨f, rfl, rfl⟩

theorem count_pos_of_lookup (agg : OutputCounts) (k : RecordKey) (f : CountFields)
    (h : agg.lookup k = some f) (hf : 1 ≤ f.count) : (OutputCounts.get agg k).count > 0 := by
  unfold OutputCounts.get
  rw [h]
  simp only [Option.getD_some]
  omega

/-- When some store holds an entry with a positive count for the key, the `if` chain of
the record emitter stops at a store that has an entry for the key, and takes the
timestamp of the record from that entry, whatever the clock reads. -/
theorem aggRecord_timestamp (db : RefData) (s : Stores) (k : RecordKey)
    (c0 : Category) (f0 : CountFields) (h0 : (s.of c0).lookup k = some f0)
    (hpos : 1 ≤ f0.count) :
    ∃ c f, firstCounted s k = some c ∧ (s.of c).lookup k = some f ∧ 0 < f.count ∧
      ∀ clock : RecordKey → Time × Time, (aggRecord db clock s k).Timestamp = f.intervalTm := by
  have hc0 := count_pos_of_lookup (s.of c0) k f0 h0 hpos
  by_cases hb : (s.aggBids.get k).count > 0
  · obtain ⟨f, hf1, hf2⟩ := lookup_of_count_pos s.aggBids k hb
    refine ⟨Category.bid, f, ?_, hf1, by rw [← hf2]; exact hb, ?_⟩
    · simp only [firstCounted, hb, if_true]
    · intro clock
      have hfp : f.count > 0 := by rw [← hf2]; assumption
      simp only [aggRecord, hb, if_true, hf2, hfp]
  · by_cases hw : (s.aggWins.get k).count > 0
    · obtain ⟨f, hf1, hf2⟩ := lookup_of_count_pos s.aggWins k hw
      refine ⟨Category.win, f, ?_, hf1, by rw [← hf2]; exact hw, ?_⟩
      · simp only [firstCounted, hb, hw, if_true, if_false]
      · intro clock
        have hfp : f.count > 0 := by rw [← hf2]; assumption
        simp only [aggRecord, hb, hw, if_true, if_false, hf2, hfp]
    · by_cases hp : (s.aggPixels.get k).count > 0
      · obtain ⟨f, hf1, hf2⟩ := lookup_of_count_pos s.aggPixels k hp
        refine ⟨Category.pixel, f, ?_, hf1, by rw [← hf2]; exact hp, ?_⟩
        · simp only [firstCounted, hb, hw, hp, if_true, if_false]
        · intro clock
          have hfp : f.count > 0 := by rw [← hf2]; assumption
          simp only [aggRecord, hb, hw, hp, if_true, if_false, hf2, hfp]
      · by_cases hk : (s.aggClicks.get k).count > 0
        · obtain ⟨f, hf1, hf2⟩ := lookup_of_count_pos s.aggClicks k hk
          refine ⟨Category.click, f, ?_, hf1, by rw [← hf2]; exact hk, ?_⟩
          · simp only [firstCounted, hb, hw, hp, hk, if_true, if_false]
          · intro clock
            have hfp : f.count > 0 := by rw [← hf2]; assumption
            simp only [aggRecord, hb, hw, hp, hk, if_true, if_false, hf2, hfp]
        · exfalso
          cases c0
          · exact hb hc0
          · exact hw hc0
          · exact hp hc0
          · exact hk hc0

/-! ## The claims on concurrent calls and on reachable states -/

set_option maxRecDepth 8000 in
/-- C11. Two tasks call `addCount` with the bid of `exampleBid`, whose key is not yet in
the map. Under the interleaving `racySchedule`, in which both tasks pass the existence
check before either creates the entry, both tasks run to their end and the final count of
the key is 1: the entry that the second task creates overwrites the count of the first.
Under the interleaving `serialSchedule` the final count is 2. -/
theorem concurrent_first_increment_lost :
    (startTask exampleParseFloatOK "bids" exampleBid.value).map (fun t => t.key) =
      some exampleKey ∧
    ((startTask exampleParseFloatOK "bids" exampleBid.value).bind
        (fun t => runSchedule racySchedule ([t, t], ⟨∅, []⟩))).map
      (fun st => (st.1.map (fun x => x.pc), (st.2.get exampleKey).count)) =
      some ([Pc.done, Pc.done], 1) ∧
    ((startTask exampleParseFloatOK "bids" exampleBid.value).bind
        (fun t => runSchedule serialSchedule ([t, t], ⟨∅, []⟩))).map
      (fun st => (st.1.map (fun x => x.pc), (st.2.get exampleKey).count)) =
      some ([Pc.done, Pc.done], 2) := by
  decide

/-- C12. In every state reached from the four empty stores by fewer than 2^63 `addCount`
calls and any flush passes on ticks or on shutdown, every entry present in a store has a
count of at least 1. Hence a flush pass over the key set of a tick or of the shutdown, in
any order, emits for every selected key a record whose four counts are not all zero and
whose timestamp is the time value of the entry of the first store, in the order bid, win,
pixel, click, with a positive count for the key; that time value is the window start
returned by `intervalTimestamp` with the label of the key, and it is taken whatever the
clock reads. -/
theorem flushed_timestamp_is_window_start (pf : String → Bool) (db : RefData)
    (clock : RecordKey → Time × Time) (n : Nat) (s : Stores)
    (hr : Reachable pf db clock n s) (hn : n < 2 ^ 63) :
    (∀ (c : Category) (k : RecordKey) (f : CountFields),
      (s.of c).lookup k = some f → 1 ≤ f.count) ∧
    ∀ (allkeys order : List RecordKey),
      ((∃ nowUnix, lastIntervalKeys nowUnix s = some allkeys) ∨ allkeys = drainKeys s) →
      order.Perm allkeys →
      (writeAggregatedRecords db clock order s).1 = order.map (aggRecord db clock s) ∧
      ∀ k ∈ order,
        ¬ ((aggRecord db clock s k).Bids = 0 ∧ (aggRecord db clock s k).Wins = 0 ∧
          (aggRecord db clock s k).Pixels = 0 ∧ (aggRecord db clock s k).Clicks = 0) ∧
        ∃ c f, firstCounted s k = some c ∧ (s.of c).lookup k = some f ∧ 0 < f.count ∧
          (∃ t, intervalTimestamp t intervalSecs =
            some (k.IntervalTs, f.intervalTs, f.intervalTm)) ∧
          ∀ clock1 : RecordKey → Time × Time,
            (aggRecord db clock1 s k).Timestamp = f.intervalTm := by
  have hinv := reachable_inv pf db clock n s hr hn
  refine ⟨fun c k f hf => (hinv c k f hf).1, ?_⟩
  intro allkeys order hsel hperm
  have hspec : allkeys.Nodup ∧ ∀ k ∈ allkeys, ∃ c f, (s.of c).lookup k = some f := by
    rcases hsel with ⟨nowUnix, h⟩ | h
    · exact lastIntervalKeys_spec nowUnix s allkeys h
    · rw [h]
      exact drainKeys_spec s
  refine ⟨writeAggregatedRecords_records db clock order s (hperm.nodup_iff.mpr hspec.1), ?_⟩
  intro k hk
  obtain ⟨c0, f0, h0⟩ := hspec.2 k (hperm.mem_iff.mp hk)
  obtain ⟨c, f, hfirst, hlook, hpos, hts⟩ :=
    aggRecord_timestamp db s k c0 f0 h0 (hinv c0 k f0 h0).1
  have hget : (OutputCounts.get (s.of c) k).count = f.count := by
    unfold OutputCounts.get
    rw [hlook]
    rfl
  refine ⟨?_, c, f, hfirst, hlook, hpos, (hinv c k f hlook).2.2, hts⟩
  rintro ⟨zb, zw, zp, zc⟩
  simp only [aggRecord] at zb zw zp zc
  cases c <;> simp only [Stores.of] at hget <;> omega

set_option maxRecDepth 8000 in
theorem flushed_timestamp_witness :
    Reachable exampleParseFloatOK exampleDb exampleClock 1 exampleBidStores ∧
    1 < 2 ^ 63 ∧
    (drainKeys exampleBidStores).Perm (drainKeys exampleBidStores) ∧
    exampleKey ∈ drainKeys exampleBidStores ∧
    ¬ ((aggRecord exampleDb exampleClock exampleBidStores exampleKey).Bids = 0 ∧
      (aggRecord exampleDb exampleClock exampleBidStores exampleKey).Wins = 0 ∧
      (aggRecord exampleDb exampleClock exampleBidStores exampleKey).Pixels = 0 ∧
      (aggRecord exampleDb exampleClock exampleBidStores exampleKey).Clicks = 0) ∧
    ∃ c f, firstCounted exampleBidStores exampleKey = some c ∧
      (exampleBidStores.of c).lookup exampleKey = some f ∧ 0 < f.count ∧
      (∃ t, intervalTimestamp t intervalSecs =
        some (exampleKey.IntervalTs, f.intervalTs, f.intervalTm)) ∧
      ∀ clock1 : RecordKey → Time × Time,
        (aggRecord exampleDb clock1 exampleBidStores exampleKey).Timestamp = f.intervalTm :=
  ⟨Reachable.message 0 Stores.init exampleBidStores exampleBid Reachable.start rfl,
    by decide, List.Perm.refl _, by decide,
    ((flushed_timestamp_is_window_start exampleParseFloatOK exampleDb exampleClock 1
      exampleBidStores
      (Reachable.message 0 Stores.init exampleBidStores exampleBid Reachable.start rfl)
      (by decide)).2 (drainKeys exampleBidStores) (drainKeys exampleBidStores) (Or.inr rfl)
      (List.Perm.refl _)).2 exampleKey (by decide)⟩

end RtbConsumer
